import Mathlib

/-!
Verification of the navigation/decision core of the tank agent
(`agent_core/world_model.py`, `planner.py`, `goal_selector.py`, `driver.py`,
`agent.py`, and `final_agent.py`).

Python floats are modelled as exact rationals (`ℚ`); Python dicts keyed by
grid cells are modelled as association lists with first-match lookup and
in-place update (mirroring dict key uniqueness and insertion order); Python
sets of cells are modelled as lists queried by membership.  Trigonometric
helpers (`math.cos`, `math.sin`, `math.atan2`) and random choices have no
exact rational counterpart, so the few places that consume them take the
corresponding function or chosen value as an explicit parameter and the
theorems quantify over it.
-/

set_option maxRecDepth 8000

namespace TankAgent

/-- Grid cell: pair of integers, from `int(x // grid_size)` quantization. -/
abbrev Cell := ℤ × ℤ

/-- Mirror of `CellState` (world_model.py lines 7-11): three float scores. -/
structure CellState where
  safe : ℚ := 0
  danger : ℚ := 0
  blocked : ℚ := 0
deriving DecidableEq

/-- First-match lookup in an association list, mirroring Python dict `d.get(c)`. -/
def alookup {α : Type} : List (Cell × α) → Cell → Option α
  | [], _ => none
  | (k, v) :: rest, c => if k = c then some v else alookup rest c

/-- In-place update-or-append, mirroring Python dict assignment `d[c] = v`. -/
def aset {α : Type} : List (Cell × α) → Cell → α → List (Cell × α)
  | [], c, v => [(c, v)]
  | (k, w) :: rest, c, v => if k = c then (c, v) :: rest else (k, w) :: aset rest c v

/-- Mirror of `WorldModel.__init__` (world_model.py lines 14-26). -/
structure WorldModel where
  grid_size : ℚ := 10
  cell_states : List (Cell × CellState) := []
  visit_counts : List (Cell × ℕ) := []
  dead_end_ttl : List (Cell × ℚ) := []
  ally_occupancy_ttl : List (Cell × ℚ) := []
  enemy_occupancy_ttl : List (Cell × ℚ) := []
  powerup_cells : List Cell := []
  preferred_powerup_cells : List Cell := []
  checkpoint_cells : List Cell := []
  pothole_cells : List Cell := []
deriving DecidableEq

namespace WorldModel

/-- Mirror of `WorldModel.to_cell`: `int(x // grid_size), int(y // grid_size)`. -/
def to_cell (m : WorldModel) (x y : ℚ) : Cell :=
  (⌊x / m.grid_size⌋, ⌊y / m.grid_size⌋)

/-- Mirror of `WorldModel.to_world_center`. -/
def to_world_center (m : WorldModel) (c : Cell) : ℚ × ℚ :=
  (((c.1 : ℚ) + 0.5) * m.grid_size, ((c.2 : ℚ) + 0.5) * m.grid_size)

/-- Mirror of `WorldModel.neighbors4`. -/
def neighbors4 (c : Cell) : List Cell :=
  [(c.1 + 1, c.2), (c.1 - 1, c.2), (c.1, c.2 + 1), (c.1, c.2 - 1)]

/-- Mirror of `WorldModel.get_state` (lazily creates a default entry); the
returned mutable handle is modelled by returning the state together with the
updated model. -/
def get_state (m : WorldModel) (c : Cell) : CellState × WorldModel :=
  match alookup m.cell_states c with
  | some st => (st, m)
  | none => ({}, { m with cell_states := aset m.cell_states c {} })

/-- Mirror of `WorldModel.increment_visit`. -/
def increment_visit (m : WorldModel) (c : Cell) : WorldModel :=
  { m with visit_counts := aset m.visit_counts c ((alookup m.visit_counts c).getD 0 + 1) }

/-- One TTL entry after a decay tick: `next_ttl = ttl - 1.0`, kept only when
`next_ttl > 0` (world_model.py lines 49-52). -/
def decayF (p : Cell × ℚ) : Option (Cell × ℚ) :=
  if p.2 - 1 > 0 then some (p.1, p.2 - 1) else none

/-- Mirror of `WorldModel.decay_dead_ends` (lines 47-67): each TTL map is
rebuilt keeping `ttl - 1` exactly when `ttl - 1 > 0`. -/
def decay_dead_ends (m : WorldModel) : WorldModel :=
  { m with
    dead_end_ttl := m.dead_end_ttl.filterMap decayF,
    ally_occupancy_ttl := m.ally_occupancy_ttl.filterMap decayF,
    enemy_occupancy_ttl := m.enemy_occupancy_ttl.filterMap decayF }

/-- Mirror of `WorldModel.mark_dead_end`: idempotent-max TTL extension. -/
def mark_dead_end (m : WorldModel) (c : Cell) (ttl : ℚ := 520) : WorldModel :=
  { m with dead_end_ttl := aset m.dead_end_ttl c (max ((alookup m.dead_end_ttl c).getD 0) ttl) }

/-- Mirror of `WorldModel.mark_ally_occupancy`. -/
def mark_ally_occupancy (m : WorldModel) (c : Cell) (ttl : ℚ := 4) : WorldModel :=
  { m with ally_occupancy_ttl := aset m.ally_occupancy_ttl c (max ((alookup m.ally_occupancy_ttl c).getD 0) ttl) }

/-- Mirror of `WorldModel.ally_occupancy_score`. -/
def ally_occupancy_score (m : WorldModel) (c : Cell) : ℚ :=
  (alookup m.ally_occupancy_ttl c).getD 0

/-- Mirror of `WorldModel.mark_enemy_occupancy`. -/
def mark_enemy_occupancy (m : WorldModel) (c : Cell) (ttl : ℚ := 4) : WorldModel :=
  { m with enemy_occupancy_ttl := aset m.enemy_occupancy_ttl c (max ((alookup m.enemy_occupancy_ttl c).getD 0) ttl) }

/-- Mirror of `WorldModel.enemy_occupancy_score`. -/
def enemy_occupancy_score (m : WorldModel) (c : Cell) : ℚ :=
  (alookup m.enemy_occupancy_ttl c).getD 0

/-- Mirror of `WorldModel.is_blocked_for_pathing` (lines 84-97). -/
def is_blocked_for_pathing (m : WorldModel) (c : Cell) : Bool :=
  if alookup m.dead_end_ttl c ≠ none then true
  else
    match alookup m.cell_states c with
    | none => false
    | some st =>
      if c ∈ m.pothole_cells then
        decide (st.blocked ≥ 2.5 ∨ (st.danger ≥ 9 ∧ st.safe < 0.6))
      else if st.blocked ≥ 1 then true
      else if st.danger ≥ 4 ∧ st.safe < 1.5 then true
      else false

/-- Mirror of `WorldModel.is_dangerous_cell`. -/
def is_dangerous_cell (m : WorldModel) (c : Cell) : Bool :=
  match alookup m.cell_states c with
  | none => false
  | some st => decide (st.danger ≥ 1)

/-- Mirror of `WorldModel.local_block_pressure` (lines 105-115). -/
def local_block_pressure (m : WorldModel) (c : Cell) : ℚ :=
  (neighbors4 c).foldl
    (fun pressure n =>
      if alookup m.dead_end_ttl n ≠ none then pressure + 1.2
      else
        match alookup m.cell_states n with
        | none => pressure
        | some st => pressure + 0.45 * st.blocked + 0.25 * st.danger)
    0

/-- The `base` value of `WorldModel.movement_cost` after the static-set
discounts and surcharges (lines 123-135), before the state-dependent terms. -/
def movement_pre (m : WorldModel) (c : Cell) : ℚ :=
  let base : ℚ := 1.9
  let base := if c ∈ m.checkpoint_cells then base * 0.75 else base
  let base := if c ∈ m.powerup_cells then base * 0.92 else base
  let base := if c ∈ m.preferred_powerup_cells then base * 0.5 else base
  let base := if c ∈ m.pothole_cells then base + 1.2 else base
  base

/-- The `base` value accumulated by `WorldModel.movement_cost` (lines 117-149)
before the final floor. -/
def movement_base (m : WorldModel) (c : Cell) : ℚ :=
  let st := (alookup m.cell_states c).getD {}
  let visits : ℚ := ((alookup m.visit_counts c).getD 0 : ℕ)
  let base : ℚ := movement_pre m c
  let base := if alookup m.cell_states c = none then base + 2.8 else base
  let base := base - 0.35 * min st.safe 3
  let base := base + 4.8 * st.danger
  let base := base + 7.2 * st.blocked
  let base := base + 0.8 * local_block_pressure m c
  let base := base + 0.12 * min visits 12
  let base := base + 6.5 * ally_occupancy_score m c
  let base := base + 8.0 * enemy_occupancy_score m c
  base

/-- Mirror of `WorldModel.movement_cost`: `return max(0.35, base)`. -/
def movement_cost (m : WorldModel) (c : Cell) : ℚ :=
  max 0.35 (movement_base m c)

/-- Mirror of the agent evidence-accumulation idiom
`model.get_state(cell).safe += q` (a live-handle field increment). -/
def add_safe (m : WorldModel) (c : Cell) (q : ℚ) : WorldModel :=
  let r := m.get_state c
  { r.2 with cell_states := aset r.2.cell_states c { r.1 with safe := r.1.safe + q } }

/-- Mirror of `model.get_state(cell).danger += q`. -/
def add_danger (m : WorldModel) (c : Cell) (q : ℚ) : WorldModel :=
  let r := m.get_state c
  { r.2 with cell_states := aset r.2.cell_states c { r.1 with danger := r.1.danger + q } }

/-- Mirror of `model.get_state(cell).blocked += q`. -/
def add_blocked (m : WorldModel) (c : Cell) (q : ℚ) : WorldModel :=
  let r := m.get_state c
  { r.2 with cell_states := aset r.2.cell_states c { r.1 with blocked := r.1.blocked + q } }

end WorldModel

/-- The per-tick operations the agent performs on its `WorldModel`: TTL marks,
evidence observation/accumulation, visit counting, static-set insertions, and
the once-per-tick TTL decay. -/
inductive WMOp where
  | markDeadEnd (c : Cell) (t : ℚ)
  | markAlly (c : Cell) (t : ℚ)
  | markEnemy (c : Cell) (t : ℚ)
  | observe (c : Cell)
  | addSafe (c : Cell) (q : ℚ)
  | addDanger (c : Cell) (q : ℚ)
  | addBlocked (c : Cell) (q : ℚ)
  | incVisit (c : Cell)
  | addPowerup (c : Cell)
  | addPreferred (c : Cell)
  | addCheckpoint (c : Cell)
  | addPothole (c : Cell)
  | decay
deriving DecidableEq

/-- Interpretation of one world-model operation. -/
def WMOp.apply (op : WMOp) (m : WorldModel) : WorldModel :=
  match op with
  | .markDeadEnd c t => m.mark_dead_end c t
  | .markAlly c t => m.mark_ally_occupancy c t
  | .markEnemy c t => m.mark_enemy_occupancy c t
  | .observe c => (m.get_state c).2
  | .addSafe c q => m.add_safe c q
  | .addDanger c q => m.add_danger c q
  | .addBlocked c q => m.add_blocked c q
  | .incVisit c => m.increment_visit c
  | .addPowerup c => { m with powerup_cells := c :: m.powerup_cells }
  | .addPreferred c => { m with preferred_powerup_cells := c :: m.preferred_powerup_cells }
  | .addCheckpoint c => { m with checkpoint_cells := c :: m.checkpoint_cells }
  | .addPothole c => { m with pothole_cells := c :: m.pothole_cells }
  | .decay => m.decay_dead_ends

/-- Applying a sequence of world-model operations in order. -/
def applyOps (m : WorldModel) (ops : List WMOp) : WorldModel :=
  ops.foldl (fun m' op => op.apply m') m

/-- Number of `decay_dead_ends` calls in an operation sequence. -/
def numDecays (ops : List WMOp) : ℕ :=
  ops.countP (fun op => op = WMOp.decay)

/-- Basic association-list lemma: updating key `c` makes lookup at `c` return
the new value. -/
theorem alookup_aset {α : Type} (l : List (Cell × α)) (c : Cell) (v : α) :
    alookup (aset l c v) c = some v := by
  induction l with
  | nil => simp [aset, alookup]
  | cons p rest ih =>
    obtain ⟨k, w⟩ := p
    by_cases h : k = c
    · simp [aset, alookup, h]
    · simp [aset, alookup, h, ih]

/-- Basic association-list lemma: updating key `c` leaves lookups at other keys
unchanged. -/
theorem alookup_aset_ne {α : Type} (l : List (Cell × α)) (c c' : Cell) (v : α)
    (h : c' ≠ c) : alookup (aset l c v) c' = alookup l c' := by
  induction l with
  | nil => simp [aset, alookup, Ne.symm h]
  | cons p rest ih =>
    obtain ⟨k, w⟩ := p
    simp only [aset]
    by_cases hk : k = c
    · subst hk
      simp [alookup, Ne.symm h]
    · simp [alookup, hk, ih]
/-- Lookup misses every key it does not contain. -/
theorem alookup_eq_none {α : Type} (l : List (Cell × α)) (c : Cell)
    (h : c ∉ l.map Prod.fst) : alookup l c = none := by
  induction l with
  | nil => rfl
  | cons p rest ih =>
    obtain ⟨k, w⟩ := p
    simp only [List.map_cons, List.mem_cons] at h
    push_neg at h
    simp [alookup, Ne.symm h.1, ih h.2]

/-- `decayF` preserves the key of an entry it keeps. -/
theorem decayF_key {p q : Cell × ℚ} (h : WorldModel.decayF p = some q) : q.1 = p.1 := by
  unfold WorldModel.decayF at h
  split at h
  · cases h; rfl
  · cases h

/-- A TTL entry with more than one tick left survives a decay with exactly one
tick less. -/
theorem alookup_decayF_kept (l : List (Cell × ℚ)) (c : Cell) (t : ℚ)
    (h : alookup l c = some t) (hk : 1 < t) :
    alookup (l.filterMap WorldModel.decayF) c = some (t - 1) := by
  induction l with
  | nil => simp [alookup] at h
  | cons p rest ih =>
    obtain ⟨k, w⟩ := p
    by_cases hkc : k = c
    · subst hkc
      have hw : w = t := by simpa [alookup] using h
      subst hw
      have hpos : w - 1 > 0 := by linarith
      simp [List.filterMap_cons, WorldModel.decayF, hpos, alookup]
    · have h' : alookup rest c = some t := by simpa [alookup, hkc] using h
      cases hdf : WorldModel.decayF (k, w) with
      | none => simp [List.filterMap_cons, hdf, ih h']
      | some q =>
        have hq : q.1 = k := decayF_key hdf
        simp [List.filterMap_cons, hdf, alookup, hq, hkc, ih h']

/-- Decay does not resurrect absent keys. -/
theorem alookup_decayF_none (l : List (Cell × ℚ)) (c : Cell)
    (h : alookup l c = none) : alookup (l.filterMap WorldModel.decayF) c = none := by
  induction l with
  | nil => rfl
  | cons p rest ih =>
    obtain ⟨k, w⟩ := p
    by_cases hkc : k = c
    · simp [alookup, hkc] at h
    · have h' : alookup rest c = none := by simpa [alookup, hkc] using h
      cases hdf : WorldModel.decayF (k, w) with
      | none => simp [List.filterMap_cons, hdf, ih h']
      | some q =>
        have hq : q.1 = k := decayF_key hdf
        simp [List.filterMap_cons, hdf, alookup, hq, hkc, ih h']

/-- A TTL entry at one tick or less is dropped by decay (with unique keys). -/
theorem alookup_decayF_dropped (l : List (Cell × ℚ)) (c : Cell) (t : ℚ)
    (hN : (l.map Prod.fst).Nodup) (h : alookup l c = some t) (hk : t ≤ 1) :
    alookup (l.filterMap WorldModel.decayF) c = none := by
  induction l with
  | nil => simp [alookup] at h
  | cons p rest ih =>
    obtain ⟨k, w⟩ := p
    rw [List.map_cons] at hN
    have hcons := List.nodup_cons.mp hN
    by_cases hkc : k = c
    · subst hkc
      have hw : w = t := by simpa [alookup] using h
      subst hw
      have hneg : ¬ (w - 1 > 0) := by intro hcon; linarith
      have hrest : alookup rest k = none := alookup_eq_none rest k hcons.1
      simp [List.filterMap_cons, WorldModel.decayF, hneg,
        alookup_decayF_none rest k hrest]
    · have h' : alookup rest c = some t := by simpa [alookup, hkc] using h
      cases hdf : WorldModel.decayF (k, w) with
      | none => simp [List.filterMap_cons, hdf, ih hcons.2 h']
      | some q =>
        have hq : q.1 = k := decayF_key hdf
        simp [List.filterMap_cons, hdf, alookup, hq, hkc, ih hcons.2 h']

/-- A cell with a live dead-end entry is reported blocked. -/
theorem is_blocked_of_dead_end (m : WorldModel) (c : Cell) (t : ℚ)
    (h : alookup m.dead_end_ttl c = some t) :
    m.is_blocked_for_pathing c = true := by
  simp [WorldModel.is_blocked_for_pathing, h]

/-- `get_state` never touches the dead-end TTL map. -/
theorem get_state_dead_end (m : WorldModel) (c : Cell) :
    ((m.get_state c).2).dead_end_ttl = m.dead_end_ttl := by
  cases h : alookup m.cell_states c <;> simp [WorldModel.get_state, h]

/-- `add_safe` never touches the dead-end TTL map. -/
theorem add_safe_dead_end (m : WorldModel) (c : Cell) (q : ℚ) :
    (m.add_safe c q).dead_end_ttl = m.dead_end_ttl := by
  simp [WorldModel.add_safe, get_state_dead_end]

/-- `add_danger` never touches the dead-end TTL map. -/
theorem add_danger_dead_end (m : WorldModel) (c : Cell) (q : ℚ) :
    (m.add_danger c q).dead_end_ttl = m.dead_end_ttl := by
  simp [WorldModel.add_danger, get_state_dead_end]

/-- `add_blocked` never touches the dead-end TTL map. -/
theorem add_blocked_dead_end (m : WorldModel) (c : Cell) (q : ℚ) :
    (m.add_blocked c q).dead_end_ttl = m.dead_end_ttl := by
  simp [WorldModel.add_blocked, get_state_dead_end]

/-- Unfolding one step of `applyOps`. -/
theorem applyOps_cons (m : WorldModel) (op : WMOp) (ops : List WMOp) :
    applyOps m (op :: ops) = applyOps (op.apply m) ops := rfl

/-- A dead-end entry survives, with TTL at least the original minus the number
of decays, any operation sequence containing fewer decays than the TTL. -/
theorem dead_end_survives (c : Cell) (ops : List WMOp) :
    ∀ (m : WorldModel) (t : ℚ), alookup m.dead_end_ttl c = some t →
      (numDecays ops : ℚ) < t →
      ∃ t', alookup (applyOps m ops).dead_end_ttl c = some t'
        ∧ t - numDecays ops ≤ t' := by
  induction ops with
  | nil =>
    intro m t h _
    exact ⟨t, h, by simp [numDecays]⟩
  | cons op rest ih =>
    intro m t h hk
    cases op with
    | markDeadEnd c' tn =>
      have hnd : numDecays (WMOp.markDeadEnd c' tn :: rest) = numDecays rest := by
        simp [numDecays]
      rw [applyOps_cons, hnd]
      rw [hnd] at hk
      by_cases hc : c' = c
      · subst hc
        have h2 : alookup ((m.mark_dead_end c' tn).dead_end_ttl) c' = some (max t tn) := by
          simp [WorldModel.mark_dead_end, alookup_aset, h]
        obtain ⟨t', ht', hge⟩ := ih _ _ h2 (lt_of_lt_of_le hk (le_max_left _ _))
        exact ⟨t', ht', by have := le_max_left t tn; linarith⟩
      · have h2 : alookup ((m.mark_dead_end c' tn).dead_end_ttl) c = some t := by
          show alookup (aset m.dead_end_ttl c' _) c = some t
          rw [alookup_aset_ne _ _ _ _ (Ne.symm hc)]
          exact h
        exact ih _ _ h2 hk
    | decay =>
      have hnd : (numDecays (WMOp.decay :: rest) : ℚ) = numDecays rest + 1 := by
        simp [numDecays, List.countP_cons]
      rw [applyOps_cons]
      rw [hnd] at hk
      have h1t : 1 < t := by
        have : (0 : ℚ) ≤ numDecays rest := by positivity
        linarith
      have h2 : alookup (m.decay_dead_ends).dead_end_ttl c = some (t - 1) := by
        simpa [WorldModel.decay_dead_ends] using alookup_decayF_kept _ _ _ h h1t
      obtain ⟨t', ht', hge⟩ := ih _ _ h2 (by linarith)
      exact ⟨t', ht', by rw [hnd]; linarith⟩
    | markAlly c' tn =>
      have hnd : numDecays (WMOp.markAlly c' tn :: rest) = numDecays rest := by
        simp [numDecays]
      rw [applyOps_cons, hnd]
      rw [hnd] at hk
      exact ih _ _ h hk
    | markEnemy c' tn =>
      have hnd : numDecays (WMOp.markEnemy c' tn :: rest) = numDecays rest := by
        simp [numDecays]
      rw [applyOps_cons, hnd]
      rw [hnd] at hk
      exact ih _ _ h hk
    | observe c' =>
      have hnd : numDecays (WMOp.observe c' :: rest) = numDecays rest := by
        simp [numDecays]
      rw [applyOps_cons, hnd]
      rw [hnd] at hk
      exact ih _ _ (by rw [show ((WMOp.observe c').apply m).dead_end_ttl = m.dead_end_ttl
        from get_state_dead_end m c']; exact h) hk
    | addSafe c' q =>
      have hnd : numDecays (WMOp.addSafe c' q :: rest) = numDecays rest := by
        simp [numDecays]
      rw [applyOps_cons, hnd]
      rw [hnd] at hk
      exact ih _ _ (by rw [show ((WMOp.addSafe c' q).apply m).dead_end_ttl = m.dead_end_ttl
        from add_safe_dead_end m c' q]; exact h) hk
    | addDanger c' q =>
      have hnd : numDecays (WMOp.addDanger c' q :: rest) = numDecays rest := by
        simp [numDecays]
      rw [applyOps_cons, hnd]
      rw [hnd] at hk
      exact ih _ _ (by rw [show ((WMOp.addDanger c' q).apply m).dead_end_ttl = m.dead_end_ttl
        from add_danger_dead_end m c' q]; exact h) hk
    | addBlocked c' q =>
      have hnd : numDecays (WMOp.addBlocked c' q :: rest) = numDecays rest := by
        simp [numDecays]
      rw [applyOps_cons, hnd]
      rw [hnd] at hk
      exact ih _ _ (by rw [show ((WMOp.addBlocked c' q).apply m).dead_end_ttl = m.dead_end_ttl
        from add_blocked_dead_end m c' q]; exact h) hk
    | incVisit c' =>
      have hnd : numDecays (WMOp.incVisit c' :: rest) = numDecays rest := by
        simp [numDecays]
      rw [applyOps_cons, hnd]
      rw [hnd] at hk
      exact ih _ _ h hk
    | addPowerup c' =>
      have hnd : numDecays (WMOp.addPowerup c' :: rest) = numDecays rest := by
        simp [numDecays]
      rw [applyOps_cons, hnd]
      rw [hnd] at hk
      exact ih _ _ h hk
    | addPreferred c' =>
      have hnd : numDecays (WMOp.addPreferred c' :: rest) = numDecays rest := by
        simp [numDecays]
      rw [applyOps_cons, hnd]
      rw [hnd] at hk
      exact ih _ _ h hk
    | addCheckpoint c' =>
      have hnd : numDecays (WMOp.addCheckpoint c' :: rest) = numDecays rest := by
        simp [numDecays]
      rw [applyOps_cons, hnd]
      rw [hnd] at hk
      exact ih _ _ h hk
    | addPothole c' =>
      have hnd : numDecays (WMOp.addPothole c' :: rest) = numDecays rest := by
        simp [numDecays]
      rw [applyOps_cons, hnd]
      rw [hnd] at hk
      exact ih _ _ h hk

/-- C3: a cell with a live dead-end entry (positive remaining TTL) is blocked
for pathing regardless of its scores and pothole membership; it stays blocked
after any sequence of mark/observe/decay operations containing fewer decays
than the TTL; and one `decay_dead_ends` call decrements the entry by exactly
1.0, dropping it when expired. -/
theorem dead_end_stays_blocked (m : WorldModel) (c : Cell) (t : ℚ) (ops : List WMOp)
    (hN : (m.dead_end_ttl.map Prod.fst).Nodup)
    (h : alookup m.dead_end_ttl c = some t) (_ht : 0 < t)
    (hk : (numDecays ops : ℚ) < t) :
    m.is_blocked_for_pathing c = true
    ∧ (applyOps m ops).is_blocked_for_pathing c = true
    ∧ alookup (m.decay_dead_ends).dead_end_ttl c
        = if 1 < t then some (t - 1) else none := by
  refine ⟨is_blocked_of_dead_end m c t h, ?_, ?_⟩
  · obtain ⟨t', ht', _⟩ := dead_end_survives c ops m t h hk
    exact is_blocked_of_dead_end _ c t' ht'
  · by_cases h1 : 1 < t
    · rw [if_pos h1]
      simpa [WorldModel.decay_dead_ends] using alookup_decayF_kept _ _ _ h h1
    · rw [if_neg h1]
      simpa [WorldModel.decay_dead_ends] using
        alookup_decayF_dropped _ _ _ hN h (by linarith [not_lt.mp h1])

/-- C3 witness: a concrete model with a dead-end TTL of 5 on cell (2, 3) and
a mixed operation sequence containing two decays. -/
theorem dead_end_stays_blocked_witness :
    (((({} : WorldModel).mark_dead_end (2, 3) 5).dead_end_ttl.map Prod.fst).Nodup
      ∧ alookup (({} : WorldModel).mark_dead_end (2, 3) 5).dead_end_ttl (2, 3) = some 5
      ∧ (0 : ℚ) < 5
      ∧ ((numDecays [WMOp.addSafe (2, 3) 9, WMOp.decay, WMOp.observe (2, 3),
            WMOp.decay, WMOp.markAlly (2, 3) 4] : ℚ) < 5))
    ∧ ((({} : WorldModel).mark_dead_end (2, 3) 5).is_blocked_for_pathing (2, 3) = true
      ∧ (applyOps (({} : WorldModel).mark_dead_end (2, 3) 5)
          [WMOp.addSafe (2, 3) 9, WMOp.decay, WMOp.observe (2, 3),
            WMOp.decay, WMOp.markAlly (2, 3) 4]).is_blocked_for_pathing (2, 3) = true
      ∧ alookup ((({} : WorldModel).mark_dead_end (2, 3) 5).decay_dead_ends).dead_end_ttl (2, 3)
          = if (1 : ℚ) < 5 then some (5 - 1) else none) :=
  ⟨⟨by with_unfolding_all decide, by with_unfolding_all decide, by norm_num,
      by with_unfolding_all decide⟩,
    dead_end_stays_blocked _ _ _ _ (by with_unfolding_all decide)
      (by with_unfolding_all decide) (by norm_num) (by with_unfolding_all decide)⟩

/-- C2: for every world-model state (arbitrary accumulator values, visit
counts, occupancy TTLs, pothole/checkpoint/powerup membership, known or
never-observed cell) and every cell `c`, `movement_cost c` is strictly
positive, floored at the epsilon 0.35. -/
theorem movement_cost_pos (m : WorldModel) (c : Cell) :
    0 < m.movement_cost c ∧ (0.35 : ℚ) ≤ m.movement_cost c := by
  have hfloor : (0.35 : ℚ) ≤ m.movement_cost c := le_max_left _ _
  exact ⟨lt_of_lt_of_le (by norm_num) hfloor, hfloor⟩

/-- C4: re-marking a cell stores the maximum of the already-stored TTL
(defaulting to 0) and the new TTL — never the sum, never a plain overwrite —
for `mark_dead_end`, `mark_ally_occupancy` and `mark_enemy_occupancy` alike;
in particular marking a fresh cell with 100 and then 30 leaves TTL 100. -/
theorem mark_ttl_idempotent_max (m : WorldModel) (c : Cell) (t1 t2 : ℚ) :
    alookup ((m.mark_dead_end c t1).mark_dead_end c t2).dead_end_ttl c
      = some (max (max ((alookup m.dead_end_ttl c).getD 0) t1) t2)
    ∧ alookup ((m.mark_ally_occupancy c t1).mark_ally_occupancy c t2).ally_occupancy_ttl c
      = some (max (max ((alookup m.ally_occupancy_ttl c).getD 0) t1) t2)
    ∧ alookup ((m.mark_enemy_occupancy c t1).mark_enemy_occupancy c t2).enemy_occupancy_ttl c
      = some (max (max ((alookup m.enemy_occupancy_ttl c).getD 0) t1) t2)
    ∧ alookup ((({} : WorldModel).mark_dead_end c 100).mark_dead_end c 30).dead_end_ttl c
      = some 100 := by
  refine ⟨?_, ?_, ?_, ?_⟩
  · simp [WorldModel.mark_dead_end, alookup_aset]
  · simp [WorldModel.mark_ally_occupancy, alookup_aset]
  · simp [WorldModel.mark_enemy_occupancy, alookup_aset]
  · norm_num [WorldModel.mark_dead_end, alookup_aset, alookup]

/-- Mirror of `AStarPlanner._heuristic`: Manhattan distance. -/
def heuristic (a b : Cell) : ℚ :=
  ((|a.1 - b.1| + |a.2 - b.2| : ℤ) : ℚ)

/-- Python tuple comparison `(f, (x, y)) <= (f', (x', y'))` used by `heapq` on
frontier entries. -/
def tupleLe (a b : ℚ × Cell) : Bool :=
  if a.1 < b.1 then true
  else if b.1 < a.1 then false
  else if a.2.1 < b.2.1 then true
  else if b.2.1 < a.2.1 then false
  else a.2.2 ≤ b.2.2

/-- `heapq.heappop`: removes a least entry (Python tuple order) of the
frontier. -/
def popMin : List (ℚ × Cell) → Option ((ℚ × Cell) × List (ℚ × Cell))
  | [] => none
  | x :: xs =>
    match popMin xs with
    | none => some (x, [])
    | some (mn, rest) => if tupleLe x mn then some (x, xs) else some (mn, x :: rest)

/-- The window test `in_bounds` of `AStarPlanner.build_path` (planner.py
lines 29-30). -/
def in_bounds (s : Cell) (radius : ℤ) (c : Cell) : Bool :=
  decide (s.1 - radius ≤ c.1 ∧ c.1 ≤ s.1 + radius ∧ s.2 - radius ≤ c.2 ∧ c.2 ≤ s.2 + radius)

/-- Result of `build_path`: a reconstructed path, the empty-list "no path"
return, exhaustion of the modelling fuel (a run that has not finished), or an
uncaught `KeyError` on `g_score[current]` (shown unreachable below). -/
inductive PResult where
  | found (p : List Cell)
  | empty
  | fuelOut
  | crash
deriving DecidableEq

/-- Path reconstruction loop of `build_path` (planner.py lines 41-46): walk
`came_from` from the goal; the Python `append`-then-`reverse` is modelled by
consing onto the accumulator. -/
def reconstruct : ℕ → List (Cell × Cell) → Cell → List Cell → Option (List Cell)
  | fuel, cf, cur, acc =>
    match alookup cf cur with
    | none => some (cur :: acc)
    | some nxt =>
      match fuel with
      | 0 => none
      | fuel' + 1 => reconstruct fuel' cf nxt (cur :: acc)

/-- One neighbor relaxation of the A* inner loop (planner.py lines 48-59).
The accumulator is `none` once `g_score[current]` has raised `KeyError`. -/
def relaxOne (m : WorldModel) (s goal : Cell) (radius : ℤ) (current : Cell)
    (acc : Option (List (ℚ × Cell) × List (Cell × Cell) × List (Cell × ℚ)))
    (n : Cell) : Option (List (ℚ × Cell) × List (Cell × Cell) × List (Cell × ℚ)) :=
  match acc with
  | none => none
  | some (fr, cf, gs) =>
    if in_bounds s radius n = false then some (fr, cf, gs)
    else if m.is_blocked_for_pathing n then some (fr, cf, gs)
    else
      match alookup gs current with
      | none => none
      | some gcur =>
        let tentative := gcur + m.movement_cost n
        let better :=
          match alookup gs n with
          | none => true
          | some gn => decide (tentative < gn)
        if better then
          some (fr ++ [(tentative + heuristic n goal, n)], aset cf n current, aset gs n tentative)
        else some (fr, cf, gs)

/-- The `while frontier:` loop of `build_path`, with explicit fuel bounding the
number of iterations of the model (the Python loop has no such bound). -/
def astarLoop (m : WorldModel) (s g : Cell) (radius : ℤ) :
    ℕ → List (ℚ × Cell) → List (Cell × Cell) → List (Cell × ℚ) → PResult
  | 0, frontier, _, _ =>
    match popMin frontier with
    | none => .empty
    | some _ => .fuelOut
  | fuel + 1, frontier, cf, gs =>
    match popMin frontier with
    | none => .empty
    | some ((_, current), rest) =>
      if current = g then
        match reconstruct (cf.length + 1) cf current [] with
        | some p => .found p
        | none => .fuelOut
      else
        match (WorldModel.neighbors4 current).foldl (relaxOne m s g radius current) (some (rest, cf, gs)) with
        | none => .crash
        | some (fr', cf', gs') => astarLoop m s g radius fuel fr' cf' gs'

/-- Mirror of `AStarPlanner.build_path` (planner.py lines 22-61). -/
def build_path (m : WorldModel) (s g : Cell) (radius : ℤ) (fuel : ℕ) : PResult :=
  if s = g then .found [s]
  else astarLoop m s g radius fuel [(0, s)] [] [(s, 0)]

/-- Loop body of `AStarPlanner.path_risk` (planner.py lines 67-69): one cell's
risk contribution, with the `get_state` lazy insertion threaded through. -/
def riskAcc (acc : ℚ × WorldModel) (c : Cell) : ℚ × WorldModel :=
  let sw := acc.2.get_state c
  (acc.1 + 2.5 * sw.1.danger + 3.0 * sw.1.blocked - 0.2 * min sw.1.safe 3, sw.2)

/-- Mirror of `AStarPlanner.path_risk` (planner.py lines 63-70); `get_state`
lazily inserts entries, so the world model is threaded through and returned. -/
def path_risk (m : WorldModel) (path : List Cell) : ℚ × WorldModel :=
  if path.isEmpty then (1000000000, m)
  else
    let r := path.foldl riskAcc (0, m)
    (r.1 / ((max 1 path.length : ℕ) : ℚ), r.2)

/-- One agent-visible move step of the bounded A* search: `b` is an in-window,
non-blocked 4-neighbor of `a`. -/
def reachStep (m : WorldModel) (s : Cell) (radius : ℤ) (a b : Cell) : Prop :=
  b ∈ WorldModel.neighbors4 a ∧ in_bounds s radius b = true
    ∧ m.is_blocked_for_pathing b = false

/-- The goal can be reached from `s` inside the window through non-blocked
cells. -/
def Reachable (m : WorldModel) (s : Cell) (radius : ℤ) (g : Cell) : Prop :=
  Relation.ReflTransGen (reachStep m s radius) s g

/-- A successful lookup exhibits a list member. -/
theorem alookup_mem {α : Type} (l : List (Cell × α)) (c : Cell) (v : α)
    (h : alookup l c = some v) : (c, v) ∈ l := by
  induction l with
  | nil => simp [alookup] at h
  | cons p rest ih =>
    obtain ⟨k, w⟩ := p
    by_cases hk : k = c
    · subst hk
      have hw : w = v := by simpa [alookup] using h
      subst hw
      exact List.mem_cons_self _ _
    · exact List.mem_cons_of_mem _ (ih (by simpa [alookup, hk] using h))

/-- `aset` never deletes a key. -/
theorem alookup_aset_ne_none {α : Type} (l : List (Cell × α)) (k c : Cell) (v : α)
    (h : alookup l c ≠ none) : alookup (aset l k v) c ≠ none := by
  by_cases hk : k = c
  · subst hk
    rw [alookup_aset]
    simp
  · rw [alookup_aset_ne l k c v (Ne.symm hk)]
    exact h

/-- Entry-wise property preservation through `aset`. -/
theorem aset_forall {α : Type} (P : Cell × α → Prop) (l : List (Cell × α)) (k : Cell)
    (v : α) (hl : ∀ p ∈ l, P p) (hv : P (k, v)) : ∀ p ∈ aset l k v, P p := by
  induction l with
  | nil =>
    intro p hp
    simp [aset] at hp
    subst hp
    exact hv
  | cons q rest ih =>
    obtain ⟨k', w⟩ := q
    intro p hp
    by_cases hk : k' = k
    · subst hk
      rw [aset, if_pos rfl] at hp
      rcases List.mem_cons.mp hp with h1 | h1
      · subst h1; exact hv
      · exact hl _ (List.mem_cons_of_mem _ h1)
    · rw [aset, if_neg hk] at hp
      rcases List.mem_cons.mp hp with h1 | h1
      · subst h1; exact hl _ (List.mem_cons_self _ _)
      · exact ih (fun r hr => hl r (List.mem_cons_of_mem _ hr)) _ h1

/-- `popMin` pops a member and keeps only members. -/
theorem popMin_mem :
    ∀ (l : List (ℚ × Cell)) (x : ℚ × Cell) (rest : List (ℚ × Cell)),
      popMin l = some (x, rest) → x ∈ l ∧ ∀ y ∈ rest, y ∈ l := by
  intro l
  induction l with
  | nil => intro x rest h; simp [popMin] at h
  | cons a xs ih =>
    intro x rest h
    rw [popMin] at h
    cases hmn : popMin xs with
    | none =>
      rw [hmn] at h
      dsimp only at h
      cases h
      exact ⟨List.mem_cons_self _ _, by simp⟩
    | some pr =>
      obtain ⟨mn, rest'⟩ := pr
      rw [hmn] at h
      dsimp only at h
      obtain ⟨hmem, hsub⟩ := ih mn rest' hmn
      by_cases ht : tupleLe a mn
      · rw [if_pos ht] at h
        cases h
        exact ⟨List.mem_cons_self _ _, fun y hy => List.mem_cons_of_mem _ hy⟩
      · rw [if_neg ht] at h
        cases h
        refine ⟨List.mem_cons_of_mem _ hmem, fun y hy => ?_⟩
        rcases List.mem_cons.mp hy with h1 | h1
        · subst h1; exact List.mem_cons_self _ _
        · exact List.mem_cons_of_mem _ (hsub y h1)

/-- Invariant carried by the A* frontier: every queued cell is reachable, is
the start or unblocked, has a `g_score` entry, and is the start or has a
`came_from` entry. -/
def goodFrontier (m : WorldModel) (s : Cell) (radius : ℤ) (cf : List (Cell × Cell))
    (gs : List (Cell × ℚ)) (frontier : List (ℚ × Cell)) : Prop :=
  ∀ e ∈ frontier, Reachable m s radius e.2
    ∧ (e.2 = s ∨ m.is_blocked_for_pathing e.2 = false)
    ∧ alookup gs e.2 ≠ none
    ∧ (e.2 = s ∨ alookup cf e.2 ≠ none)

/-- Invariant carried by `came_from`: keys are unblocked (they were admitted as
neighbors), values are the start or unblocked, and values are the start or
have their own entry. -/
def goodCf (m : WorldModel) (s : Cell) (cf : List (Cell × Cell)) : Prop :=
  ∀ p ∈ cf, m.is_blocked_for_pathing p.1 = false
    ∧ (p.2 = s ∨ m.is_blocked_for_pathing p.2 = false)
    ∧ (p.2 = s ∨ alookup cf p.2 ≠ none)

/-- The neighbor-relaxation fold preserves the invariants and never raises
`KeyError` when the popped cell has a `g_score` entry. -/
theorem relax_fold (m : WorldModel) (s g : Cell) (radius : ℤ) (current : Cell)
    (hcur : Reachable m s radius current)
    (hcurP : current = s ∨ m.is_blocked_for_pathing current = false) :
    ∀ (ns : List Cell), (∀ n ∈ ns, n ∈ WorldModel.neighbors4 current) →
    ∀ fr cf gs, goodFrontier m s radius cf gs fr → goodCf m s cf →
      alookup gs current ≠ none → (current = s ∨ alookup cf current ≠ none) →
      ∃ fr' cf' gs',
        ns.foldl (relaxOne m s g radius current) (some (fr, cf, gs))
          = some (fr', cf', gs')
        ∧ goodFrontier m s radius cf' gs' fr' ∧ goodCf m s cf'
        ∧ alookup gs' current ≠ none ∧ (current = s ∨ alookup cf' current ≠ none) := by
  intro ns
  induction ns with
  | nil =>
    intro _ fr cf gs hf hc hg hcf
    exact ⟨fr, cf, gs, rfl, hf, hc, hg, hcf⟩
  | cons n ns ih =>
    intro hns fr cf gs hf hc hg hcf
    have hnn : n ∈ WorldModel.neighbors4 current := hns n (List.mem_cons_self _ _)
    have hns' : ∀ x ∈ ns, x ∈ WorldModel.neighbors4 current :=
      fun x hx => hns x (List.mem_cons_of_mem _ hx)
    rw [List.foldl_cons]
    by_cases hb : in_bounds s radius n = false
    · rw [show relaxOne m s g radius current (some (fr, cf, gs)) n = some (fr, cf, gs) by
        simp [relaxOne, hb]]
      exact ih hns' fr cf gs hf hc hg hcf
    · have hbT : in_bounds s radius n = true := by
        cases hh : in_bounds s radius n
        · exact absurd hh hb
        · rfl
      by_cases hblk : m.is_blocked_for_pathing n = true
      · rw [show relaxOne m s g radius current (some (fr, cf, gs)) n = some (fr, cf, gs) by
          simp [relaxOne, hb, hblk]]
        exact ih hns' fr cf gs hf hc hg hcf
      · have hblkF : m.is_blocked_for_pathing n = false := by
          cases hh : m.is_blocked_for_pathing n
          · rfl
          · exact absurd hh hblk
        obtain ⟨gcur, hgcur⟩ := Option.ne_none_iff_exists'.mp hg
        set tentative := gcur + m.movement_cost n with htdef
        set better : Bool :=
          (match alookup gs n with
            | none => true
            | some gn => decide (tentative < gn)) with hbet
        cases hbv : better with
        | false =>
          rw [show relaxOne m s g radius current (some (fr, cf, gs)) n = some (fr, cf, gs) by
            rw [relaxOne]
            simp only [hb, if_false, hblk, if_false, hgcur]
            rw [← htdef, ← hbet, hbv]
            simp]
          exact ih hns' fr cf gs hf hc hg hcf
        | true =>
          have hstep : relaxOne m s g radius current (some (fr, cf, gs)) n
              = some (fr ++ [(tentative + heuristic n g, n)], aset cf n current,
                  aset gs n tentative) := by
            rw [relaxOne]
            simp only [hb, if_false, hblk, if_false, hgcur]
            rw [← htdef, ← hbet, hbv]
            simp
          rw [hstep]
          have hreachN : Reachable m s radius n :=
            Relation.ReflTransGen.tail hcur ⟨hnn, hbT, hblkF⟩
          have hf' : goodFrontier m s radius (aset cf n current) (aset gs n tentative)
              (fr ++ [(tentative + heuristic n g, n)]) := by
            intro e he
            rcases List.mem_append.mp he with h1 | h1
            · obtain ⟨he1, he2, he3, he4⟩ := hf e h1
              exact ⟨he1, he2, alookup_aset_ne_none _ _ _ _ he3,
                he4.imp id (alookup_aset_ne_none _ _ _ _)⟩
            · have : e = (tentative + heuristic n g, n) := by simpa using h1
              subst this
              refine ⟨hreachN, Or.inr hblkF, ?_, Or.inr ?_⟩
              · rw [alookup_aset]; simp
              · rw [alookup_aset]; simp
          have hc' : goodCf m s (aset cf n current) := by
            apply aset_forall
            · intro p hp
              obtain ⟨hp1, hp2, hp3⟩ := hc p hp
              exact ⟨hp1, hp2, hp3.imp id (alookup_aset_ne_none _ _ _ _)⟩
            · refine ⟨hblkF, hcurP, hcf.imp id (alookup_aset_ne_none _ _ _ _)⟩
          exact ih hns' _ _ _ hf' hc'
            (alookup_aset_ne_none _ _ _ _ hg)
            (hcf.imp id (alookup_aset_ne_none _ _ _ _))

/-- Every cell of a reconstructed path satisfies any property enjoyed by the
walk's starting cell, the accumulator, and all `came_from` values. -/
theorem reconstruct_forall (P : Cell → Prop) :
    ∀ (fuel : ℕ) (cf : List (Cell × Cell)) (cur : Cell) (acc : List Cell)
      (p : List Cell), reconstruct fuel cf cur acc = some p →
      (∀ q ∈ cf, P q.2) → P cur → (∀ a ∈ acc, P a) → ∀ c ∈ p, P c := by
  intro fuel
  induction fuel with
  | zero =>
    intro cf cur acc p h hcf hcur hacc c hcp
    rw [reconstruct] at h
    cases h1 : alookup cf cur with
    | none =>
      rw [h1] at h
      have : cur :: acc = p := by simpa using h
      subst this
      rcases List.mem_cons.mp hcp with h2 | h2
      · subst h2; exact hcur
      · exact hacc c h2
    | some nxt => rw [h1] at h; simp at h
  | succ fuel ih =>
    intro cf cur acc p h hcf hcur hacc c hcp
    rw [reconstruct] at h
    cases h1 : alookup cf cur with
    | none =>
      rw [h1] at h
      have : cur :: acc = p := by simpa using h
      subst this
      rcases List.mem_cons.mp hcp with h2 | h2
      · subst h2; exact hcur
      · exact hacc c h2
    | some nxt =>
      rw [h1] at h
      exact ih cf nxt (cur :: acc) p h hcf (hcf _ (alookup_mem _ _ _ h1))
        (fun a ha => by
          rcases List.mem_cons.mp ha with h2 | h2
          · subst h2; exact hcur
          · exact hacc a h2) c hcp

/-- A reconstructed path is headed by the start cell: the walk can only stop
at a cell with no `came_from` entry, and every walked cell is the start or has
one. -/
theorem reconstruct_head (s : Cell) :
    ∀ (fuel : ℕ) (cf : List (Cell × Cell)) (cur : Cell) (acc : List Cell)
      (p : List Cell), reconstruct fuel cf cur acc = some p →
      (cur = s ∨ alookup cf cur ≠ none) →
      (∀ q ∈ cf, q.2 = s ∨ alookup cf q.2 ≠ none) →
      ∃ rest, p = s :: rest := by
  intro fuel
  induction fuel with
  | zero =>
    intro cf cur acc p h hcur hcf
    rw [reconstruct] at h
    cases h1 : alookup cf cur with
    | none =>
      rw [h1] at h
      have hs : cur = s := by
        rcases hcur with h2 | h2
        · exact h2
        · exact absurd h1 h2
      subst hs
      exact ⟨acc, by simpa using h.symm⟩
    | some nxt => rw [h1] at h; simp at h
  | succ fuel ih =>
    intro cf cur acc p h hcur hcf
    rw [reconstruct] at h
    cases h1 : alookup cf cur with
    | none =>
      rw [h1] at h
      have hs : cur = s := by
        rcases hcur with h2 | h2
        · exact h2
        · exact absurd h1 h2
      subst hs
      exact ⟨acc, by simpa using h.symm⟩
    | some nxt =>
      rw [h1] at h
      exact ih cf nxt (cur :: acc) p h (hcf _ (alookup_mem _ _ _ h1)) hcf

/-- Soundness of the bounded A* loop under the frontier and `came_from`
invariants: the loop never raises, and any path it finds witnesses
reachability of the goal, visits only unblocked cells apart from the start,
and is headed by the start cell. -/
theorem astarLoop_sound (m : WorldModel) (s g : Cell) (radius : ℤ) :
    ∀ (fuel : ℕ) (frontier : List (ℚ × Cell)) (cf : List (Cell × Cell))
      (gs : List (Cell × ℚ)),
      goodFrontier m s radius cf gs frontier → goodCf m s cf →
      astarLoop m s g radius fuel frontier cf gs ≠ .crash
      ∧ ∀ p, astarLoop m s g radius fuel frontier cf gs = .found p →
          Reachable m s radius g
          ∧ (∀ c ∈ p, c = s ∨ m.is_blocked_for_pathing c = false)
          ∧ ∃ rest, p = s :: rest := by
  intro fuel
  induction fuel with
  | zero =>
    intro frontier cf gs _ _
    rw [astarLoop]
    cases hpop : popMin frontier <;> simp
  | succ fuel ih =>
    intro frontier cf gs hf hc
    rw [astarLoop]
    cases hpop : popMin frontier with
    | none => simp
    | some pr =>
      obtain ⟨⟨f, current⟩, rest⟩ := pr
      obtain ⟨hmem, hsub⟩ := popMin_mem frontier _ _ hpop
      obtain ⟨hreach, hcurP, hgsc, hcfc⟩ := hf _ hmem
      dsimp only
      by_cases hg : current = g
      · rw [if_pos hg]
        cases hrec : reconstruct (cf.length + 1) cf current [] with
        | none => simp
        | some p =>
          dsimp only
          constructor
          · simp
          · intro p' hp'
            have hpp : p = p' := by
              have := (PResult.found.injEq .. ▸ hp' :)
              exact this
            subst hpp
            subst hg
            refine ⟨hreach, ?_, ?_⟩
            · exact reconstruct_forall _ _ _ _ _ _ hrec
                (fun q hq => (hc q hq).2.1) hcurP (by simp)
            · exact reconstruct_head s _ _ _ _ _ hrec hcfc
                (fun q hq => (hc q hq).2.2)
      · rw [if_neg hg]
        have hrest : goodFrontier m s radius cf gs rest :=
          fun e he => hf e (hsub e he)
        obtain ⟨fr', cf', gs', hfold, hf', hc', _, _⟩ :=
          relax_fold m s g radius current hreach hcurP
            (WorldModel.neighbors4 current) (fun _ hn => hn)
            rest cf gs hrest hc hgsc hcfc
        rw [hfold]
        exact ih fr' cf' gs' hf' hc'

/-- The initial frontier/`came_from`/`g_score` of `build_path` satisfy the
loop invariants. -/
theorem init_invariants (m : WorldModel) (s : Cell) (radius : ℤ) :
    goodFrontier m s radius [] [(s, 0)] [(0, s)] ∧ goodCf m s [] := by
  constructor
  · intro e he
    have : e = ((0 : ℚ), s) := by simpa using he
    subst this
    refine ⟨Relation.ReflTransGen.refl, Or.inl rfl, ?_, Or.inl rfl⟩
    simp [alookup]
  · intro p hp
    simp at hp

/-- C5: `build_path(start, start)` short-circuits to the one-element path
`[start]`; `build_path` never raises (the `KeyError` state is unreachable);
and whenever the goal is not reachable from the start inside the square
window — in particular whenever the goal lies outside the window — every
completed run returns the empty path (`fuelOut` covers only runs that exceed
the modelling fuel, which has no Python counterpart). -/
theorem build_path_degrades_gracefully (m : WorldModel) (s g : Cell) (radius : ℤ)
    (fuel : ℕ) (hsg : s ≠ g) (hreach : ¬ Reachable m s radius g) :
    build_path m s s radius fuel = .found [s]
    ∧ build_path m s g radius fuel ≠ .crash
    ∧ (build_path m s g radius fuel = .empty ∨ build_path m s g radius fuel = .fuelOut) := by
  have hinit := init_invariants m s radius
  have hsound := astarLoop_sound m s g radius fuel [(0, s)] [] [(s, 0)] hinit.1 hinit.2
  have hbp : build_path m s g radius fuel = astarLoop m s g radius fuel [(0, s)] [] [(s, 0)] := by
    rw [build_path, if_neg hsg]
  refine ⟨by rw [build_path, if_pos rfl], ?_, ?_⟩
  · rw [hbp]; exact hsound.1
  · rw [hbp]
    cases hres : astarLoop m s g radius fuel [(0, s)] [] [(s, 0)] with
    | found p => exact absurd (hsound.2 p hres).1 hreach
    | empty => exact Or.inl rfl
    | fuelOut => exact Or.inr rfl
    | crash => exact absurd hres hsound.1

/-- A goal outside the window is unreachable: every non-trivial reach chain
ends with a step into an in-window cell. -/
theorem not_reachable_of_out_of_bounds (m : WorldModel) (s g : Cell) (radius : ℤ)
    (hsg : s ≠ g) (hb : in_bounds s radius g = false) :
    ¬ Reachable m s radius g := by
  intro h
  rcases Relation.ReflTransGen.cases_tail h with h1 | ⟨c, _, hstep⟩
  · exact hsg h1.symm
  · rw [hstep.2.1] at hb
    cases hb

/-- A blocked goal cell is unreachable: steps only enter unblocked cells. -/
theorem not_reachable_of_blocked (m : WorldModel) (s g : Cell) (radius : ℤ)
    (hsg : s ≠ g) (hb : m.is_blocked_for_pathing g = true) :
    ¬ Reachable m s radius g := by
  intro h
  rcases Relation.ReflTransGen.cases_tail h with h1 | ⟨c, _, hstep⟩
  · exact hsg h1.symm
  · rw [hstep.2.2] at hb
    cases hb

/-- C5 witness: radius 0 with goal (3, 3) outside the one-cell window. -/
theorem build_path_degrades_gracefully_witness :
    (((0, 0) : Cell) ≠ ((3, 3) : Cell)
      ∧ ¬ Reachable ({} : WorldModel) (0, 0) 0 (3, 3))
    ∧ (build_path ({} : WorldModel) (0, 0) (0, 0) 0 9 = .found [(0, 0)]
      ∧ build_path ({} : WorldModel) (0, 0) (3, 3) 0 9 ≠ .crash
      ∧ (build_path ({} : WorldModel) (0, 0) (3, 3) 0 9 = .empty
        ∨ build_path ({} : WorldModel) (0, 0) (3, 3) 0 9 = .fuelOut)) :=
  have hns : ((0, 0) : Cell) ≠ ((3, 3) : Cell) := by decide
  have hnr : ¬ Reachable ({} : WorldModel) (0, 0) 0 (3, 3) :=
    not_reachable_of_out_of_bounds _ _ _ _ hns (by with_unfolding_all decide)
  ⟨⟨hns, hnr⟩, build_path_degrades_gracefully ({} : WorldModel) (0, 0) (3, 3) 0 9 hns hnr⟩

/-- A world model whose start cell (0, 0) is a dead end. -/
def wmDeadStart : WorldModel := ({} : WorldModel).mark_dead_end (0, 0) 50

/-- C9: every cell of a path returned by `build_path`, except possibly the
start cell, is unblocked at the searched state, and the returned path is
headed by the start cell; the start cell itself is never filtered, as the
bundled concrete run from a dead-ended start cell shows. -/
theorem build_path_cells_unblocked (m : WorldModel) (s g : Cell) (radius : ℤ)
    (fuel : ℕ) (p : List Cell) (h : build_path m s g radius fuel = .found p) :
    (∀ c ∈ p, c = s ∨ m.is_blocked_for_pathing c = false)
    ∧ (∃ rest, p = s :: rest)
    ∧ (build_path wmDeadStart (0, 0) (0, 1) 1 8 = .found [(0, 0), (0, 1)]
      ∧ wmDeadStart.is_blocked_for_pathing (0, 0) = true) := by
  have hconc : build_path wmDeadStart (0, 0) (0, 1) 1 8 = .found [(0, 0), (0, 1)]
      ∧ wmDeadStart.is_blocked_for_pathing (0, 0) = true := by
    with_unfolding_all decide
  by_cases hsg : s = g
  · subst hsg
    rw [build_path, if_pos rfl] at h
    have hp : [s] = p := (PResult.found.injEq .. ▸ h :)
    subst hp
    refine ⟨?_, ⟨[], rfl⟩, hconc⟩
    intro c hc
    left
    simpa using hc
  · rw [build_path, if_neg hsg] at h
    have hinit := init_invariants m s radius
    have hsound := astarLoop_sound m s g radius fuel [(0, s)] [] [(s, 0)] hinit.1 hinit.2
    obtain ⟨_, h2, h3⟩ := hsound.2 p h
    exact ⟨h2, h3, hconc⟩

/-- C9 witness: a concrete bounded search from the dead-ended start (0, 0) to
(0, 1). -/
theorem build_path_cells_unblocked_witness :
    build_path wmDeadStart (0, 0) (0, 1) 1 8 = .found [(0, 0), (0, 1)]
    ∧ ((∀ c ∈ [((0, 0) : Cell), (0, 1)],
          c = ((0, 0) : Cell) ∨ wmDeadStart.is_blocked_for_pathing c = false)
      ∧ (∃ rest, [((0, 0) : Cell), (0, 1)] = ((0, 0) : Cell) :: rest)
      ∧ (build_path wmDeadStart (0, 0) (0, 1) 1 8 = .found [(0, 0), (0, 1)]
        ∧ wmDeadStart.is_blocked_for_pathing (0, 0) = true)) :=
  ⟨by with_unfolding_all decide,
    build_path_cells_unblocked wmDeadStart (0, 0) (0, 1) 1 8 [(0, 0), (0, 1)]
      (by with_unfolding_all decide)⟩

/-- Mirror of `GoalSelector._unknown_neighbors` (goal_selector.py lines
36-41): number of 4-neighbors with no recorded cell state. -/
def unknown_neighbors (m : WorldModel) (c : Cell) : ℕ :=
  (WorldModel.neighbors4 c).countP (fun n => alookup m.cell_states n = none)

/-- The second model arises from the first purely by lazy default insertions
into `cell_states`: every other field is untouched, recorded states are
preserved, and unknown cells are still unknown or hold the default state. -/
def InsertsOnly (m0 m1 : WorldModel) : Prop :=
  m1.grid_size = m0.grid_size ∧ m1.visit_counts = m0.visit_counts
  ∧ m1.dead_end_ttl = m0.dead_end_ttl ∧ m1.ally_occupancy_ttl = m0.ally_occupancy_ttl
  ∧ m1.enemy_occupancy_ttl = m0.enemy_occupancy_ttl
  ∧ m1.powerup_cells = m0.powerup_cells
  ∧ m1.preferred_powerup_cells = m0.preferred_powerup_cells
  ∧ m1.checkpoint_cells = m0.checkpoint_cells ∧ m1.pothole_cells = m0.pothole_cells
  ∧ (∀ x v, alookup m0.cell_states x = some v → alookup m1.cell_states x = some v)
  ∧ (∀ x, alookup m0.cell_states x = none →
      alookup m1.cell_states x = none ∨ alookup m1.cell_states x = some {})

/-- `InsertsOnly` is reflexive. -/
theorem insertsOnly_refl (m : WorldModel) : InsertsOnly m m := by
  refine ⟨rfl, rfl, rfl, rfl, rfl, rfl, rfl, rfl, rfl, fun x v h => h, fun x h => Or.inl h⟩

/-- `InsertsOnly` is transitive. -/
theorem insertsOnly_trans {m0 m1 m2 : WorldModel}
    (h1 : InsertsOnly m0 m1) (h2 : InsertsOnly m1 m2) : InsertsOnly m0 m2 := by
  obtain ⟨a1, b1, c1, d1, e1, f1, g1, i1, j1, k1, l1⟩ := h1
  obtain ⟨a2, b2, c2, d2, e2, f2, g2, i2, j2, k2, l2⟩ := h2
  refine ⟨a2.trans a1, b2.trans b1, c2.trans c1, d2.trans d1, e2.trans e1,
    f2.trans f1, g2.trans g1, i2.trans i1, j2.trans j1,
    fun x v h => k2 x v (k1 x v h), fun x h => ?_⟩
  rcases l1 x h with h' | h'
  · exact l2 x h'
  · exact Or.inr (k2 x _ h')

/-- `get_state` only performs a lazy default insertion. -/
theorem get_state_insertsOnly (m : WorldModel) (c : Cell) :
    InsertsOnly m (m.get_state c).2 := by
  cases hc : alookup m.cell_states c with
  | some st =>
    rw [show (m.get_state c).2 = m by simp [WorldModel.get_state, hc]]
    exact insertsOnly_refl m
  | none =>
    rw [show (m.get_state c).2 = { m with cell_states := aset m.cell_states c {} } by
      simp [WorldModel.get_state, hc]]
    refine ⟨rfl, rfl, rfl, rfl, rfl, rfl, rfl, rfl, rfl, fun x v h => ?_, fun x h => ?_⟩
    · have hxc : x ≠ c := by
        intro he
        subst he
        rw [h] at hc
        cases hc
      show alookup (aset m.cell_states c ({} : CellState)) x = some v
      rw [alookup_aset_ne _ _ _ _ hxc]
      exact h
    · by_cases hxc : x = c
      · subst hxc
        right
        show alookup (aset m.cell_states x ({} : CellState)) x = some {}
        rw [alookup_aset]
      · left
        show alookup (aset m.cell_states c ({} : CellState)) x = none
        rw [alookup_aset_ne _ _ _ _ hxc]
        exact h

/-- `get_state` leaves the queried cell recorded. -/
theorem get_state_covers (m : WorldModel) (c : Cell) :
    alookup ((m.get_state c).2).cell_states c ≠ none := by
  cases hc : alookup m.cell_states c with
  | some st => simp [WorldModel.get_state, hc]
  | none => simp [WorldModel.get_state, hc, alookup_aset]

/-- `get_state` never forgets a recorded cell. -/
theorem get_state_keeps (m : WorldModel) (c x : Cell)
    (h : alookup m.cell_states x ≠ none) :
    alookup ((m.get_state c).2).cell_states x ≠ none := by
  cases hc : alookup m.cell_states c with
  | some st => simpa [WorldModel.get_state, hc] using h
  | none =>
    simp only [WorldModel.get_state, hc]
    exact alookup_aset_ne_none _ _ _ _ h

/-- The `path_risk` fold only performs lazy default insertions and records
every visited cell. -/
theorem riskAcc_fold (cs : List Cell) :
    ∀ (q : ℚ) (w : WorldModel),
      InsertsOnly w ((cs.foldl riskAcc (q, w)).2)
      ∧ ∀ x, (x ∈ cs ∨ alookup w.cell_states x ≠ none) →
          alookup ((cs.foldl riskAcc (q, w)).2).cell_states x ≠ none := by
  induction cs with
  | nil =>
    intro q w
    exact ⟨insertsOnly_refl w, fun x hx => by
      rcases hx with hx | hx
      · simp at hx
      · exact hx⟩
  | cons c cs ih =>
    intro q w
    rw [List.foldl_cons]
    have hstep : riskAcc (q, w) c
        = (q + 2.5 * (w.get_state c).1.danger + 3.0 * (w.get_state c).1.blocked
            - 0.2 * min (w.get_state c).1.safe 3, (w.get_state c).2) := rfl
    rw [hstep]
    obtain ⟨hio, hcov⟩ := ih _ (w.get_state c).2
    refine ⟨insertsOnly_trans (get_state_insertsOnly w c) hio, fun x hx => ?_⟩
    rcases hx with hx | hx
    · rcases List.mem_cons.mp hx with h1 | h1
      · subst h1
        exact hcov x (Or.inr (get_state_covers w x))
      · exact hcov x (Or.inl h1)
    · exact hcov x (Or.inr (get_state_keeps w c x hx))

/-- Local block pressure only depends on the TTL map and recorded states, and
default states contribute nothing, so lazy insertions do not change it. -/
theorem local_block_pressure_insertsOnly (m m' : WorldModel) (c : Cell)
    (hio : InsertsOnly m m') :
    m'.local_block_pressure c = m.local_block_pressure c := by
  obtain ⟨_, _, hde, _, _, _, _, _, _, hkeep, hnew⟩ := hio
  unfold WorldModel.local_block_pressure
  apply List.foldl_ext
  intro pr n _
  rw [hde]
  cases hn : alookup m.cell_states n with
  | some st => rw [hkeep n st hn]
  | none =>
    rcases hnew n hn with h' | h'
    · rw [h']
    · rw [h']
      by_cases hdd : alookup m.dead_end_ttl n ≠ none
      · rw [if_pos hdd, if_pos hdd]
      · rw [if_neg hdd, if_neg hdd]
        dsimp
        norm_num

/-- Pointwise-dominated predicates count no more. -/
theorem countP_le_of_pointwise {α : Type} (l : List α) (p q : α → Bool)
    (h : ∀ x ∈ l, q x = true → p x = true) : l.countP q ≤ l.countP p := by
  induction l with
  | nil => simp
  | cons a l ih =>
    rw [List.countP_cons, List.countP_cons]
    have hle := ih (fun x hx => h x (List.mem_cons_of_mem _ hx))
    cases hq : q a with
    | false => simp; omega
    | true =>
      rw [h a (List.mem_cons_self _ _) hq]
      simp
      omega

/-- Pointwise-dominated predicates with a strict witness count strictly
fewer. -/
theorem countP_lt_of_pointwise {α : Type} (l : List α) (p q : α → Bool)
    (h : ∀ x ∈ l, q x = true → p x = true) (a : α) (ha : a ∈ l)
    (hpa : p a = true) (hqa : q a = false) : l.countP q < l.countP p := by
  induction l with
  | nil => simp at ha
  | cons b l ih =>
    rw [List.countP_cons, List.countP_cons]
    rcases List.mem_cons.mp ha with h1 | h1
    · subst h1
      rw [hpa, hqa]
      have := countP_le_of_pointwise l p q (fun x hx => h x (List.mem_cons_of_mem _ hx))
      simp
      omega
    · have hlt := ih (fun x hx => h x (List.mem_cons_of_mem _ hx)) h1
      have hbq : q b = true → p b = true := h b (List.mem_cons_self _ _)
      cases hq : q b with
      | false => cases hp : p b <;> simp <;> omega
      | true => rw [hbq hq]; simp; omega

/-- C10: `path_risk` is not read-only — for every path cell with no recorded
state, evaluating `path_risk` inserts the default all-zero state, after which
`movement_cost` for that cell drops by exactly the 2.8 unknown-cell penalty
and the cell stops counting as an unknown neighbor of any of its neighbors. -/
theorem movement_base_insertsOnly (m w' : WorldModel) (c : Cell)
    (hio : InsertsOnly m w') (hun : alookup m.cell_states c = none)
    (hcsome : alookup w'.cell_states c = some {}) :
    WorldModel.movement_base w' c = m.movement_base c - 2.8 := by
  obtain ⟨hgs, hvc, hde, hal, hen, hpw, hpp, hcp', hph, hkeep, hnew⟩ := hio
  have hpr := local_block_pressure_insertsOnly m w' c
    ⟨hgs, hvc, hde, hal, hen, hpw, hpp, hcp', hph, hkeep, hnew⟩
  have has : WorldModel.ally_occupancy_score w' c = WorldModel.ally_occupancy_score m c := by
    unfold WorldModel.ally_occupancy_score
    rw [hal]
  have hes : WorldModel.enemy_occupancy_score w' c = WorldModel.enemy_occupancy_score m c := by
    unfold WorldModel.enemy_occupancy_score
    rw [hen]
  have hpre : WorldModel.movement_pre w' c = WorldModel.movement_pre m c := by
    unfold WorldModel.movement_pre
    rw [hpw, hpp, hcp', hph]
  unfold WorldModel.movement_base
  rw [hvc, hcsome, hun, hpr, has, hes, hpre]
  simp only [Option.getD_some, Option.getD_none, reduceCtorEq, if_false, if_true, ite_true,
    ite_false, ite_self, eq_self_iff_true]
  ring

/-- Recording a formerly unknown cell strictly lowers the unknown-neighbor
count of each of its neighbors. -/
theorem unknown_neighbors_insertsOnly (m w' : WorldModel) (c : Cell)
    (hio : InsertsOnly m w') (hun : alookup m.cell_states c = none)
    (hcsome : alookup w'.cell_states c = some {}) (n : Cell)
    (hcn : c ∈ WorldModel.neighbors4 n) :
    unknown_neighbors w' n < unknown_neighbors m n := by
  obtain ⟨_, _, _, _, _, _, _, _, _, hkeep, _⟩ := hio
  unfold unknown_neighbors
  apply countP_lt_of_pointwise _ _ _ ?_ c hcn (by simp [hun]) (by simp [hcsome])
  intro x _ hx
  simp only [decide_eq_true_eq] at hx ⊢
  cases h0 : alookup m.cell_states x with
  | some st => rw [hkeep x st h0] at hx; cases hx
  | none => rfl

/-- C10: `path_risk` is not read-only — for every path cell with no recorded
state, evaluating `path_risk` inserts the default all-zero state, after which
`movement_cost` for that cell drops by exactly the 2.8 unknown-cell penalty
and the cell stops counting as an unknown neighbor of any of its neighbors. -/
theorem path_risk_mutates (m : WorldModel) (p : List Cell) (c : Cell)
    (hcp : c ∈ p) (hun : alookup m.cell_states c = none) :
    alookup ((path_risk m p).2).cell_states c = some {}
    ∧ WorldModel.movement_base (path_risk m p).2 c = m.movement_base c - 2.8
    ∧ WorldModel.movement_cost (path_risk m p).2 c = max 0.35 (m.movement_base c - 2.8)
    ∧ ∀ n : Cell, c ∈ WorldModel.neighbors4 n →
        unknown_neighbors (path_risk m p).2 n < unknown_neighbors m n := by
  have hne : ¬ p.isEmpty := by
    cases p
    · simp at hcp
    · simp
  have hpr2 : (path_risk m p).2 = (p.foldl riskAcc (0, m)).2 := by
    rw [path_risk, if_neg hne]
  rw [hpr2]
  obtain ⟨hio, hcov⟩ := riskAcc_fold p 0 m
  revert hio hcov
  generalize (p.foldl riskAcc ((0 : ℚ), m)).2 = w'
  intro hio hcov
  have hcsome : alookup w'.cell_states c = some {} := by
    rcases hio.2.2.2.2.2.2.2.2.2.2 c hun with h' | h'
    · exact absurd h' (hcov c (Or.inl hcp))
    · exact h'
  have hbase := movement_base_insertsOnly m w' c hio hun hcsome
  exact ⟨hcsome, hbase, by rw [WorldModel.movement_cost, hbase],
    fun n hcn => unknown_neighbors_insertsOnly m w' c hio hun hcsome n hcn⟩

/-- C10 witness: evaluating `path_risk` on the one-cell path `[(1, 1)]` over
the empty world model. -/
theorem path_risk_mutates_witness :
    (((1, 1) : Cell) ∈ [((1, 1) : Cell)]
      ∧ alookup ({} : WorldModel).cell_states (1, 1) = none)
    ∧ (alookup ((path_risk ({} : WorldModel) [(1, 1)]).2).cell_states (1, 1) = some {}
      ∧ WorldModel.movement_base (path_risk ({} : WorldModel) [(1, 1)]).2 (1, 1)
          = ({} : WorldModel).movement_base (1, 1) - 2.8
      ∧ WorldModel.movement_cost (path_risk ({} : WorldModel) [(1, 1)]).2 (1, 1)
          = max 0.35 (({} : WorldModel).movement_base (1, 1) - 2.8)
      ∧ ∀ n : Cell, ((1, 1) : Cell) ∈ WorldModel.neighbors4 n →
          unknown_neighbors (path_risk ({} : WorldModel) [(1, 1)]).2 n
            < unknown_neighbors ({} : WorldModel) n) :=
  ⟨⟨by decide, by with_unfolding_all decide⟩,
    path_risk_mutates ({} : WorldModel) [(1, 1)] (1, 1) (by decide)
      (by with_unfolding_all decide)⟩

/-- Python float modulus `x % y` (sign of the divisor). -/
def qmod (x y : ℚ) : ℚ := x - y * ⌊x / y⌋

/-- The two sequential wrap loops of `normalize_angle_diff` (geometry.py lines
13-19), written as one fueled recursion: a step fires only while the value is
outside `[-180, 180]`, exactly as the Python `while` loops. -/
def normStep : ℕ → ℚ → ℚ
  | 0, d => d
  | n + 1, d =>
    if d > 180 then normStep n (d - 360)
    else if d < -180 then normStep n (d + 360) else d

/-- Mirror of `normalize_angle_diff`; the fuel bound dominates the number of
wrap steps the Python loops can take. -/
def normalize_angle_diff (target_angle current_angle : ℚ) : ℚ :=
  normStep (⌈|target_angle - current_angle| / 360⌉.toNat + 1) (target_angle - current_angle)

/-- Mirror of `MotionDriver.__init__` (driver.py lines 11-20).  The driver
owns the shared `WorldModel` reference. -/
structure MotionDriver where
  world_model : WorldModel
  path : List Cell := []
  last_position : Option (ℚ × ℚ) := none
  last_move_cmd : ℚ := 0
  stuck_ticks : ℕ := 0
  escape_ticks : ℕ := 0
  escape_heading : Option ℚ := none
  unblock_ticks : ℕ := 0
deriving DecidableEq

/-- A fresh driver over a world model. -/
def initDriver (wm : WorldModel) : MotionDriver := { world_model := wm }

/-- Mirror of `MotionDriver.best_immediate_safe_neighbor` (driver.py lines
27-38); `get_state` insertions are threaded through the returned model. -/
def best_immediate_safe_neighbor (m : WorldModel) (my_cell : Cell)
    (allow_risky : Bool := false) : Option Cell × WorldModel :=
  let r := (WorldModel.neighbors4 my_cell).foldl
    (fun (acc : Option Cell × ℚ × WorldModel) cell =>
      if !allow_risky && acc.2.2.is_blocked_for_pathing cell then acc
      else
        let sw := acc.2.2.get_state cell
        let score := 4.0 * sw.1.safe - 8.0 * sw.1.danger - 4.0 * sw.1.blocked
          - 0.2 * ((alookup sw.2.visit_counts cell).getD 0 : ℕ)
        if score > acc.2.1 then (some cell, score, sw.2) else (acc.1, acc.2.1, sw.2))
    (none, -1000000000, m)
  (r.1, r.2.2)

/-- Mirror of `MotionDriver.drive_to_point` (driver.py lines 44-62);
`heading_to_angle_deg` (an `atan2`) is taken as the parameter `angleFn`. -/
def drive_to_point (angleFn : ℚ → ℚ → ℚ → ℚ → ℚ)
    (my_x my_y my_heading tx ty top_speed : ℚ) : ℚ × ℚ :=
  let target_angle := angleFn my_x my_y tx ty
  let diff := normalize_angle_diff target_angle my_heading
  let abs_diff := |diff|
  let turn_limit : ℚ := if abs_diff ≤ 18 then 10 else if abs_diff ≤ 45 then 16 else 22
  let turn := max (-turn_limit) (min turn_limit diff)
  let speed := if abs_diff > 60 then top_speed * 0.50
    else if abs_diff > 30 then top_speed * 0.76 else top_speed
  (turn, speed)

/-- Mirror of `MotionDriver.drive_to_cell` (driver.py lines 40-42). -/
def drive_to_cell (angleFn : ℚ → ℚ → ℚ → ℚ → ℚ) (m : WorldModel)
    (my_x my_y my_heading : ℚ) (target_cell : Cell) (top_speed : ℚ) : ℚ × ℚ :=
  let t := m.to_world_center target_cell
  drive_to_point angleFn my_x my_y my_heading t.1 t.2 top_speed

/-- The qualifying-stuck-tick test of `update_stuck` (driver.py lines
113-117): commanded speed above the trying threshold, displacement below
0.15 (compared through its square to stay rational), no enemies visible. -/
def qualifies (d : MotionDriver) (my_x my_y : ℚ) (enemies_visible : Bool)
    (blocking_tank_in_front : Bool) : Bool :=
  match d.last_position with
  | none => false
  | some lp =>
    decide (d.last_move_cmd > (if blocking_tank_in_front then (0.2 : ℚ) else 0.4))
      && decide ((my_x - lp.1) ^ 2 + (my_y - lp.2) ^ 2 < (0.15 : ℚ) ^ 2)
      && !enemies_visible

/-- Mirror of `MotionDriver.update_stuck` (driver.py lines 100-136).
`math.cos`/`math.sin` composed with `math.radians` are taken as the
parameters `cosd`/`sind` (degree input). -/
def update_stuck (cosd sind : ℚ → ℚ) (d : MotionDriver) (my_x my_y : ℚ)
    (enemies_visible : Bool) (heading : ℚ) (blocking_tank_in_front : Bool := false) :
    Bool × MotionDriver :=
  match d.last_position with
  | none => (false, { d with last_position := some (my_x, my_y), stuck_ticks := 0 })
  | some _ =>
    let st := if qualifies d my_x my_y enemies_visible blocking_tank_in_front
      then d.stuck_ticks + 1 else d.stuck_ticks - 1
    if st ≥ 10 then
      let w := [(-28 : ℚ), 0, 28].foldl
        (fun w off =>
          let h := qmod (heading + off) 360
          let bc := w.to_cell (my_x + cosd h * 9) (my_y + sind h * 9)
          (w.add_blocked bc 1.25).mark_dead_end bc 560)
        d.world_model
      (true, { d with world_model := w, path := [], stuck_ticks := 0, last_position := some (my_x, my_y) })
    else
      (false, { d with stuck_ticks := st, last_position := some (my_x, my_y) })

/-- Mirror of `MotionDriver.start_escape` (driver.py lines 138-142); the
`random.choice` turn is the parameter `rand`. -/
def start_escape (d : MotionDriver) (my_heading rand : ℚ)
    (force_new : Bool := false) : MotionDriver :=
  let d' := if d.escape_heading = none ∨ force_new then
      { d with escape_heading := some (qmod (my_heading + rand) 360) } else d
  { d' with escape_ticks := max d'.escape_ticks 45 }

/-- The escape countdown of `escape_drive` (driver.py lines 166-168 and
178-180): `escape_ticks = max(0, escape_ticks - 1)` and the heading is
cleared exactly when the counter reaches 0. -/
def escapeTickDown (d : MotionDriver) : MotionDriver :=
  let ticks := d.escape_ticks - 1
  { d with escape_ticks := ticks, escape_heading := if ticks = 0 then none else d.escape_heading }

/-- The safe-neighbor selection opening `MotionDriver.escape_drive`
(driver.py lines 160-163): retry with `allow_risky=True` when no strictly
safe neighbor exists.  The `assert self.escape_heading is not None` further
down cannot fail (the preceding lines set it); the model reads the heading
with a default that is provably never used. -/
def escapeTarget (d : MotionDriver) (my_cell : Cell) : Option Cell × WorldModel :=
  let r1 := best_immediate_safe_neighbor d.world_model my_cell false
  match r1.1 with
  | some c => (some c, r1.2)
  | none => best_immediate_safe_neighbor r1.2 my_cell true

/-- Remainder of `MotionDriver.escape_drive` (driver.py lines 159-181). -/
def escape_drive (angleFn : ℚ → ℚ → ℚ → ℚ → ℚ) (rand : ℚ) (d : MotionDriver)
    (my_x my_y my_heading top_speed : ℚ) : (ℚ × ℚ) × MotionDriver :=
  let my_cell := d.world_model.to_cell my_x my_y
  let r2 := escapeTarget d my_cell
  match r2.1 with
  | some target =>
    let cmd := drive_to_cell angleFn r2.2 my_x my_y my_heading target top_speed
    (cmd, escapeTickDown { d with world_model := r2.2 })
  | none =>
    let d1 : MotionDriver := { d with world_model := r2.2 }
    let d2 := if d1.escape_heading = none then start_escape d1 my_heading rand false else d1
    let diff := normalize_angle_diff (d2.escape_heading.getD 0) my_heading
    let turn := max (-18 : ℚ) (min 18 diff)
    let speed := if |diff| < 30 then top_speed else top_speed * 0.5
    ((turn, speed), escapeTickDown d2)

/-- The escape-state invariant: the escape heading is cleared exactly when the
escape counter is 0. -/
def EscapeInv (d : MotionDriver) : Prop :=
  d.escape_heading = none ↔ d.escape_ticks = 0

/-- The countdown step preserves the escape-state invariant. -/
theorem escapeTickDown_inv (d : MotionDriver) (h : EscapeInv d) :
    EscapeInv (escapeTickDown d) := by
  unfold EscapeInv at h
  unfold EscapeInv escapeTickDown
  dsimp only
  by_cases h0 : d.escape_ticks - 1 = 0
  · simp [h0]
  · have ht : ¬ d.escape_ticks = 0 := by omega
    have hh : ¬ d.escape_heading = none := fun hn => ht (h.mp hn)
    simp [h0, hh]

/-- `start_escape` establishes the escape-state invariant and arms at least
45 escape ticks. -/
theorem start_escape_inv (d : MotionDriver) (h r : ℚ) (f : Bool) :
    EscapeInv (start_escape d h r f) ∧ 45 ≤ (start_escape d h r f).escape_ticks := by
  unfold EscapeInv start_escape
  by_cases hc : d.escape_heading = none ∨ f = true
  · simp only [hc, if_true, if_pos]
    constructor
    · constructor
      · intro hx
        cases hx
      · intro hx
        exact absurd (Nat.max_eq_zero_iff.mp hx).2 (by omega)
    · exact le_max_right _ _
  · rw [if_neg hc]
    push_neg at hc
    constructor
    · constructor
      · intro hx
        exact absurd hx hc.1
      · intro hx
        exact absurd (Nat.max_eq_zero_iff.mp hx).2 (by omega)
    · exact le_max_right _ _

/-- The driver returned by `escape_drive` is always a countdown step applied
either to the incoming driver (with an updated world model) or, when the
escape heading was unset, to a freshly started escape. -/
theorem escape_drive_shape (af : ℚ → ℚ → ℚ → ℚ → ℚ) (r : ℚ) (d : MotionDriver)
    (x y hd ts : ℚ) :
    ∃ w : WorldModel,
      (escape_drive af r d x y hd ts).2 = escapeTickDown { d with world_model := w }
      ∨ (d.escape_heading = none
        ∧ (escape_drive af r d x y hd ts).2
            = escapeTickDown (start_escape { d with world_model := w } hd r false)) := by
  unfold escape_drive
  cases hsn : (escapeTarget d (d.world_model.to_cell x y)).1 with
  | some target =>
    refine ⟨(escapeTarget d (d.world_model.to_cell x y)).2, Or.inl ?_⟩
    dsimp only
    rw [hsn]
  | none =>
    refine ⟨(escapeTarget d (d.world_model.to_cell x y)).2, ?_⟩
    dsimp only
    rw [hsn]
    by_cases hh : d.escape_heading = none
    · exact Or.inr ⟨hh, by rw [if_pos hh]⟩
    · exact Or.inl (by rw [if_neg hh])

/-- C7: after any escape operation the escape heading is `None` exactly when
`escape_ticks` is 0 (holding initially, after `start_escape`, and after
`escape_drive`), and once escape has started (`escape_ticks > 0`) each
`escape_drive` call decrements `escape_ticks` by exactly one — in particular
the counter is non-increasing absent a forced restart. -/
theorem escape_ticks_discipline :
    (∀ wm : WorldModel, EscapeInv (initDriver wm))
    ∧ (∀ (d : MotionDriver) (h r : ℚ) (f : Bool), EscapeInv d →
        EscapeInv (start_escape d h r f))
    ∧ (∀ (d : MotionDriver) (af : ℚ → ℚ → ℚ → ℚ → ℚ) (r x y hd ts : ℚ),
        EscapeInv d →
        EscapeInv (escape_drive af r d x y hd ts).2
        ∧ (0 < d.escape_ticks →
            (escape_drive af r d x y hd ts).2.escape_ticks = d.escape_ticks - 1)) := by
  refine ⟨?_, ?_, ?_⟩
  · intro wm
    constructor
    · intro _
      rfl
    · intro _
      rfl
  · intro d h r f _
    exact (start_escape_inv d h r f).1
  · intro d af r x y hd ts hinv
    obtain ⟨w, hshape | ⟨hnone, hshape⟩⟩ := escape_drive_shape af r d x y hd ts
    · have hinv' : EscapeInv ({ d with world_model := w } : MotionDriver) := hinv
      rw [hshape]
      exact ⟨escapeTickDown_inv _ hinv', fun _ => rfl⟩
    · have hzero : d.escape_ticks = 0 := hinv.mp hnone
      rw [hshape]
      refine ⟨escapeTickDown_inv _ (start_escape_inv _ hd r false).1, fun hpos => ?_⟩
      rw [hzero] at hpos
      exact absurd hpos (by omega)

/-- C7 witness: a driver mid-escape (heading set, 5 ticks left) driven one
step. -/
theorem escape_ticks_discipline_witness :
    EscapeInv { initDriver {} with escape_ticks := 5, escape_heading := some 90 }
    ∧ (EscapeInv (escape_drive (fun _ _ _ _ => 0) 120
          { initDriver {} with escape_ticks := 5, escape_heading := some 90 }
          5 5 0 3).2
      ∧ (0 < ({ initDriver {} with escape_ticks := 5, escape_heading := some 90 }
            : MotionDriver).escape_ticks →
          (escape_drive (fun _ _ _ _ => 0) 120
            { initDriver {} with escape_ticks := 5, escape_heading := some 90 }
            5 5 0 3).2.escape_ticks = 5 - 1)) :=
  have hinv : EscapeInv { initDriver {} with escape_ticks := 5, escape_heading := some 90 } := by
    constructor
    · intro hx
      cases hx
    · intro hx
      cases hx
  ⟨hinv, escape_ticks_discipline.2.2
    { initDriver {} with escape_ticks := 5, escape_heading := some 90 }
    (fun _ _ _ _ => 0) 120 5 5 0 3 hinv⟩

/-- One tick of input to the stuck detector: current position, enemy
visibility, heading, the blocking-ally flag, and the movement command the
agent last issued (written into `driver.last_move_cmd` before the call). -/
structure StuckInput where
  x : ℚ
  y : ℚ
  enemies : Bool
  heading : ℚ
  blocking : Bool
  move_cmd : ℚ
deriving DecidableEq

/-- One agent tick of the stuck detector: the agent stores the issued command
in `last_move_cmd`, then `update_stuck` runs. -/
def stuckStep (cosd sind : ℚ → ℚ) (d : MotionDriver) (i : StuckInput) :
    Bool × MotionDriver :=
  update_stuck cosd sind { d with last_move_cmd := i.move_cmd } i.x i.y i.enemies
    i.heading i.blocking

/-- Run the stuck detector over an input sequence, recording for every call
whether the tick qualified and whether the detector triggered. -/
def runStuck (cosd sind : ℚ → ℚ) : MotionDriver → List StuckInput → List (Bool × Bool) × MotionDriver
  | d, [] => ([], d)
  | d, i :: is =>
    let q := qualifies { d with last_move_cmd := i.move_cmd } i.x i.y i.enemies i.blocking
    let r := stuckStep cosd sind d i
    let rest := runStuck cosd sind r.2 is
    ((q, r.1) :: rest.1, rest.2)

/-- Characterization of one `update_stuck` call on an initialized detector. -/
theorem update_stuck_char (cosd sind : ℚ → ℚ) (d : MotionDriver) (x y : ℚ)
    (ev : Bool) (h : ℚ) (bl : Bool) (lp : ℚ × ℚ) (hlp : d.last_position = some lp) :
    (update_stuck cosd sind d x y ev h bl).1
      = decide ((if qualifies d x y ev bl then d.stuck_ticks + 1 else d.stuck_ticks - 1) ≥ 10)
    ∧ (update_stuck cosd sind d x y ev h bl).2.stuck_ticks
      = (if (if qualifies d x y ev bl then d.stuck_ticks + 1 else d.stuck_ticks - 1) ≥ 10
          then 0
          else (if qualifies d x y ev bl then d.stuck_ticks + 1 else d.stuck_ticks - 1)) := by
  unfold update_stuck
  rw [hlp]
  dsimp only
  by_cases hq : (if qualifies d x y ev bl then d.stuck_ticks + 1 else d.stuck_ticks - 1) ≥ 10
  · rw [if_pos hq]
    simp [hq]
  · rw [if_neg hq]
    simp [hq]

/-- An uninitialized detector records the position and reports no trigger. -/
theorem update_stuck_init (cosd sind : ℚ → ℚ) (d : MotionDriver) (x y : ℚ)
    (ev : Bool) (h : ℚ) (bl : Bool) (hlp : d.last_position = none) :
    (update_stuck cosd sind d x y ev h bl).1 = false
    ∧ (update_stuck cosd sind d x y ev h bl).2.stuck_ticks = 0 := by
  unfold update_stuck
  rw [hlp]
  exact ⟨rfl, rfl⟩

/-- Over any run, the counter never exceeds its initial value plus the number
of qualifying ticks reported in the trace. -/
theorem runStuck_counter_bound (cosd sind : ℚ → ℚ) :
    ∀ (is : List StuckInput) (d : MotionDriver),
      (runStuck cosd sind d is).2.stuck_ticks
        ≤ d.stuck_ticks + ((runStuck cosd sind d is).1.countP (fun pr => pr.1)) := by
  intro is
  induction is with
  | nil => intro d; simp [runStuck]
  | cons i is ih =>
    intro d
    rw [runStuck]
    dsimp only
    rw [List.countP_cons]
    have hbound := ih (stuckStep cosd sind d i).2
    set d' : MotionDriver := { d with last_move_cmd := i.move_cmd } with hd'
    cases hlp : d'.last_position with
    | none =>
      have hinit := update_stuck_init cosd sind d' i.x i.y i.enemies i.heading i.blocking hlp
      have hst : (stuckStep cosd sind d i).2.stuck_ticks = 0 := hinit.2
      rw [hst] at hbound
      simp only [qualifies, hlp]
      omega
    | some lp =>
      have hchar := update_stuck_char cosd sind d' i.x i.y i.enemies i.heading i.blocking lp hlp
      have hst := hchar.2
      have hq0 : qualifies { d with last_move_cmd := i.move_cmd } i.x i.y i.enemies i.blocking
          = qualifies d' i.x i.y i.enemies i.blocking := rfl
      rw [hq0]
      cases hq : qualifies d' i.x i.y i.enemies i.blocking with
      | true =>
        rw [hq] at hst
        have hst' : (stuckStep cosd sind d i).2.stuck_ticks
            = if 10 ≤ d.stuck_ticks + 1 then 0 else d.stuck_ticks + 1 := by
          simpa using hst
        by_cases h10 : 10 ≤ d.stuck_ticks + 1
        · rw [if_pos h10] at hst'
          rw [hst'] at hbound
          simp [hq]
          omega
        · rw [if_neg h10] at hst'
          rw [hst'] at hbound
          simp [hq]
          omega
      | false =>
        rw [hq] at hst
        have hst' : (stuckStep cosd sind d i).2.stuck_ticks
            = if 10 ≤ d.stuck_ticks - 1 then 0 else d.stuck_ticks - 1 := by
          simpa using hst
        by_cases h10 : 10 ≤ d.stuck_ticks - 1
        · rw [if_pos h10] at hst'
          rw [hst'] at hbound
          simp [hq]
          omega
        · rw [if_neg h10] at hst'
          rw [hst'] at hbound
          simp [hq]
          omega

/-- `update_stuck` always records the current position. -/
theorem update_stuck_lp (cosd sind : ℚ → ℚ) (d : MotionDriver) (x y : ℚ)
    (ev : Bool) (h : ℚ) (bl : Bool) :
    (update_stuck cosd sind d x y ev h bl).2.last_position = some (x, y) := by
  unfold update_stuck
  cases hlp : d.last_position
  · rfl
  · dsimp only
    split <;> split <;> rfl

/-- The `k`-th call of the strictly alternating not-moved/moved input family:
position `(⌊k/2⌋, 0)`, full command, no enemies, no blocker. -/
def altInput (k : ℕ) : StuckInput :=
  { x := ((k / 2 : ℕ) : ℚ), y := 0, enemies := false, heading := 0, blocking := false,
    move_cmd := 1 }

/-- `n` alternating inputs starting at call index `k`. -/
def altInputsFrom : ℕ → ℕ → List StuckInput
  | _, 0 => []
  | k, n + 1 => altInput k :: altInputsFrom (k + 1) n

/-- On the alternating family the detector never triggers: its counter
oscillates between 0 and 1. -/
theorem alt_run (cosd sind : ℚ → ℚ) :
    ∀ (n j : ℕ) (d : MotionDriver),
      d.last_position = some (((j / 2 : ℕ) : ℚ), 0) →
      d.stuck_ticks = j % 2 →
      ∀ pr ∈ (runStuck cosd sind d (altInputsFrom (j + 1) n)).1, pr.2 = false := by
  intro n
  induction n with
  | zero =>
    intro j d _ _ pr hpr
    simp [altInputsFrom, runStuck] at hpr
  | succ n ih =>
    intro j d hlp hst pr hpr
    rw [altInputsFrom, runStuck] at hpr
    dsimp only at hpr
    have hlp' : ({ d with last_move_cmd := (altInput (j + 1)).move_cmd }
        : MotionDriver).last_position = some (((j / 2 : ℕ) : ℚ), 0) := hlp
    have hchar := update_stuck_char cosd sind _ (altInput (j + 1)).x (altInput (j + 1)).y
      (altInput (j + 1)).enemies (altInput (j + 1)).heading (altInput (j + 1)).blocking
      _ hlp'
    have hqv : qualifies { d with last_move_cmd := (altInput (j + 1)).move_cmd }
        (altInput (j + 1)).x (altInput (j + 1)).y (altInput (j + 1)).enemies
        (altInput (j + 1)).blocking = decide (j % 2 = 0) := by
      unfold qualifies
      rw [hlp']
      dsimp only [altInput]
      rcases Nat.mod_two_eq_zero_or_one j with hj | hj
      · have hdiv : (j + 1) / 2 = j / 2 := by omega
        rw [hdiv, hj]
        norm_num
      · have hdiv : (j + 1) / 2 = j / 2 + 1 := by omega
        rw [hdiv, hj]
        push_cast
        norm_num
    have hrun := hchar.1
    rw [hqv] at hrun hchar
    have htrigF : (stuckStep cosd sind d (altInput (j + 1))).1 = false := by
      rw [stuckStep, hrun]
      rcases Nat.mod_two_eq_zero_or_one j with hj | hj <;>
        simp [hj, hst]
    have hst' : (stuckStep cosd sind d (altInput (j + 1))).2.stuck_ticks = (j + 1) % 2 := by
      rw [stuckStep, hchar.2]
      rcases Nat.mod_two_eq_zero_or_one j with hj | hj <;>
        simp [hj, hst] <;> omega
    have hlp2 : (stuckStep cosd sind d (altInput (j + 1))).2.last_position
        = some ((((j + 1) / 2 : ℕ) : ℚ), 0) := by
      rw [stuckStep, update_stuck_lp]
      rfl
    rcases List.mem_cons.mp hpr with hpr1 | hpr1
    · rw [hpr1]
      exact htrigF
    · exact ih (j + 1) _ hlp2 hst' pr hpr1

/-- C6 (amended): `update_stuck` triggers exactly when the tick qualifies with
the counter standing at 9 (so the counter reaches 10); on triggering the
counter resets to 0; over any run the counter never exceeds its initial value
plus the number of qualifying ticks, so at least 10 qualifying ticks must
separate consecutive triggers — but they need not be consecutive; and a
strictly alternating moved/not-moved sequence never triggers. -/
theorem update_stuck_discipline (cosd sind : ℚ → ℚ) :
    (∀ (d : MotionDriver) (x y : ℚ) (ev : Bool) (h : ℚ) (bl : Bool),
      d.stuck_ticks ≤ 9 →
        ((update_stuck cosd sind d x y ev h bl).1 = true
          ↔ (qualifies d x y ev bl = true ∧ d.stuck_ticks = 9))
        ∧ ((update_stuck cosd sind d x y ev h bl).1 = true →
            (update_stuck cosd sind d x y ev h bl).2.stuck_ticks = 0))
    ∧ (∀ (is : List StuckInput) (d : MotionDriver),
        (runStuck cosd sind d is).2.stuck_ticks
          ≤ d.stuck_ticks + ((runStuck cosd sind d is).1.countP (fun pr => pr.1)))
    ∧ (∀ (wm : WorldModel) (n : ℕ),
        ∀ pr ∈ (runStuck cosd sind (initDriver wm) (altInputsFrom 0 n)).1,
          pr.2 = false) := by
  refine ⟨?_, runStuck_counter_bound cosd sind, ?_⟩
  · intro d x y ev h bl h9
    cases hlp : d.last_position with
    | none =>
      have hinit := update_stuck_init cosd sind d x y ev h bl hlp
      rw [hinit.1]
      constructor
      · constructor
        · intro hcon
          cases hcon
        · rintro ⟨hq, -⟩
          unfold qualifies at hq
          rw [hlp] at hq
          cases hq
      · intro hcon
        cases hcon
    | some lp =>
      have hchar := update_stuck_char cosd sind d x y ev h bl lp hlp
      cases hq : qualifies d x y ev bl with
      | true =>
        have h1 := hchar.1
        rw [hq, if_pos (rfl : (true : Bool) = true)] at h1
        constructor
        · constructor
          · intro htr
            rw [h1] at htr
            simp only [decide_eq_true_eq, ge_iff_le] at htr
            exact ⟨rfl, by omega⟩
          · rintro ⟨-, h9'⟩
            rw [h1]
            simp only [decide_eq_true_eq, ge_iff_le]
            omega
        · intro htr
          rw [h1] at htr
          simp only [decide_eq_true_eq, ge_iff_le] at htr
          have h2 := hchar.2
          rw [hq, if_pos (rfl : (true : Bool) = true)] at h2
          rw [h2, if_pos htr]
      | false =>
        have h1 := hchar.1
        rw [hq, if_neg (by decide : ¬ ((false : Bool) = true))] at h1
        have hfalse : (update_stuck cosd sind d x y ev h bl).1 = false := by
          rw [h1]
          simp only [decide_eq_false_iff_not, ge_iff_le]
          omega
        rw [hfalse]
        constructor
        · constructor
          · intro hcon
            cases hcon
          · rintro ⟨hq', -⟩
            simp [hq] at hq'
        · intro hcon
          cases hcon
  · intro wm n
    cases n with
    | zero =>
      intro pr hpr
      simp [altInputsFrom, runStuck] at hpr
    | succ n =>
      intro pr hpr
      rw [altInputsFrom, runStuck] at hpr
      dsimp only at hpr
      have hlp0 : ({ initDriver wm with last_move_cmd := (altInput 0).move_cmd }
          : MotionDriver).last_position = none := rfl
      have hinit := update_stuck_init cosd sind _ (altInput 0).x (altInput 0).y
        (altInput 0).enemies (altInput 0).heading (altInput 0).blocking hlp0
      rcases List.mem_cons.mp hpr with hpr1 | hpr1
      · rw [hpr1]
        exact hinit.1
      · have hlp1 : (stuckStep cosd sind (initDriver wm) (altInput 0)).2.last_position
            = some (((0 / 2 : ℕ) : ℚ), 0) := by
          rw [stuckStep]
          unfold update_stuck
          rw [hlp0]
          rfl
        exact alt_run cosd sind n 0 _ hlp1 hinit.2 pr hpr1

/-- C6 witness: a detector with counter 9 and a qualifying stationary tick,
and a concrete alternating run. -/
theorem update_stuck_discipline_witness :
    (({ initDriver {} with last_position := some (0, 0), stuck_ticks := 9, last_move_cmd := 1 }
        : MotionDriver).stuck_ticks ≤ 9
      ∧ (((update_stuck (fun _ => 0) (fun _ => 0)
            { initDriver {} with last_position := some (0, 0), stuck_ticks := 9, last_move_cmd := 1 }
            0 0 false 0 false).1 = true
          ↔ (qualifies
              { initDriver {} with last_position := some (0, 0), stuck_ticks := 9, last_move_cmd := 1 }
              0 0 false false = true
            ∧ ({ initDriver {} with last_position := some (0, 0), stuck_ticks := 9, last_move_cmd := 1 }
                : MotionDriver).stuck_ticks = 9))
        ∧ ((update_stuck (fun _ => 0) (fun _ => 0)
              { initDriver {} with last_position := some (0, 0), stuck_ticks := 9, last_move_cmd := 1 }
              0 0 false 0 false).1 = true →
            (update_stuck (fun _ => 0) (fun _ => 0)
              { initDriver {} with last_position := some (0, 0), stuck_ticks := 9, last_move_cmd := 1 }
              0 0 false 0 false).2.stuck_ticks = 0)))
    ∧ (((false, false) : Bool × Bool)
          ∈ (runStuck (fun _ => 0) (fun _ => 0) (initDriver {}) (altInputsFrom 0 2)).1
        ∧ ((false, false) : Bool × Bool).2 = false) :=
  ⟨⟨by decide,
      (update_stuck_discipline (fun _ => 0) (fun _ => 0)).1
        { initDriver {} with last_position := some (0, 0), stuck_ticks := 9, last_move_cmd := 1 }
        0 0 false 0 false (by decide)⟩,
    by with_unfolding_all decide,
    (update_stuck_discipline (fun _ => 0) (fun _ => 0)).2.2 {} 2 (false, false)
      (by with_unfolding_all decide)⟩

/-- The length of the longest run of consecutive `true` entries. -/
def maxRunTrue (l : List Bool) : ℕ :=
  (l.foldl (fun acc b => if b then (acc.1 + 1, max acc.2 (acc.1 + 1)) else (0, acc.2))
    ((0, 0) : ℕ × ℕ)).2

/-- A 27-tick scenario: an initialization tick, two stuck ticks, then eight
blocks of moved-stuck-stuck.  No ten consecutive qualifying ticks ever occur
(the longest qualifying run has length 2). -/
def ceInputs : List StuckInput :=
  ([0, 0, 0, 1, 1, 1, 2, 2, 2, 3, 3, 3, 4, 4, 4, 5, 5, 5, 6, 6, 6, 7, 7, 7, 8, 8, 8]
      : List ℚ).map
    (fun x => { x := x, y := 0, enemies := false, heading := 0, blocking := false, move_cmd := 1 })

/-- C6 counterexample: the detector triggers on the final tick of `ceInputs`
although the longest run of consecutive qualifying stuck ticks anywhere in
the sequence is 2 — far below 10 — because non-qualifying ticks only
decrement the counter by one instead of resetting it. -/
theorem update_stuck_consecutive_counterexample :
    ((runStuck (fun _ => 0) (fun _ => 0) (initDriver {}) ceInputs).1.map Prod.snd)
      = List.replicate 26 false ++ [true]
    ∧ maxRunTrue
        ((runStuck (fun _ => 0) (fun _ => 0) (initDriver {}) ceInputs).1.map Prod.fst) = 2
    ∧ 2 < 10 := by
  with_unfolding_all decide

/-- A small model of Python values as they appear in the per-tick status
payload: `None`, numbers (floats as exact rationals), strings, and dicts. -/
inductive PyVal where
  | pynone
  | num (q : ℚ)
  | str (s : String)
  | dict (entries : List (String × PyVal))

/-- First-match lookup in a Python dict payload. -/
def sget : List (String × PyVal) → String → Option PyVal
  | [], _ => none
  | (k, v) :: rest, key => if k = key then some v else sget rest key

/-- Python `d.get(key, default)`. -/
def pyGet (d : List (String × PyVal)) (key : String) (default : PyVal) : PyVal :=
  (sget d key).getD default

/-- Python truthiness of the modelled values. -/
def pyTruthy : PyVal → Bool
  | .pynone => false
  | .num q => decide (q ≠ 0)
  | .str s => !s.isEmpty
  | .dict d => !d.isEmpty

/-- Python `a or b`. -/
def pyOr (a b : PyVal) : PyVal := if pyTruthy a then a else b

/-- One decimal digit. -/
def digitVal (c : Char) : Option ℕ :=
  if c.isDigit then some (c.toNat - 48) else none

/-- A nonempty all-digit group. -/
def parseDigits (cs : List Char) : Option ℕ :=
  if cs.isEmpty then none
  else cs.foldl
    (fun acc c =>
      match acc, digitVal c with
      | some n, some d => some (n * 10 + d)
      | _, _ => none)
    (some 0)

/-- Unsigned decimal literal, with an optional fractional part (`"7"`,
`"7."`, `".5"`, `"7.25"`). -/
def parseUnsigned (cs : List Char) : Option ℚ :=
  match cs.splitOn '.' with
  | [intp] => (parseDigits intp).map (fun n => (n : ℚ))
  | [intp, frac] =>
    if intp.isEmpty && frac.isEmpty then none
    else
      match (if intp.isEmpty then some 0 else parseDigits intp),
          (if frac.isEmpty then some 0 else parseDigits frac) with
      | some i, some f => some ((i : ℚ) + (f : ℚ) / ((10 : ℚ) ^ frac.length))
      | _, _ => none
  | _ => none

/-- The decimal-literal fragment of Python `float(str)` (exponents and the
`inf`/`nan` spellings are not modelled; all literals in the payloads at hand
are plain decimals). -/
def parseFloat (s : String) : Option ℚ :=
  match s.data with
  | '-' :: rest => (parseUnsigned rest).map (fun q => -q)
  | '+' :: rest => parseUnsigned rest
  | cs => parseUnsigned cs

/-- Python `float(value)`: numbers pass through, numeric strings parse, and
everything else raises. -/
def pyFloat : PyVal → Except String ℚ
  | .num q => .ok q
  | .str s =>
    match parseFloat s with
    | some q => .ok q
    | none => .error ("ValueError: could not convert string to float: " ++ s)
  | .pynone => .error "TypeError: float() argument must be a string or a real number, not NoneType"
  | .dict _ => .error "TypeError: float() argument must be a string or a real number, not dict"

/-- Mirror of `to_xy` (geometry.py lines 7-10): on a dict payload it converts
the `x`/`y` entries with `float`; on the other modelled values (which carry no
attributes) `getattr(value, _, 0.0)` yields the default `0.0`. -/
def to_xy (v : PyVal) : Except String (ℚ × ℚ) :=
  match v with
  | .dict d => do
    let x ← pyFloat (pyGet d "x" (.num 0))
    let y ← pyFloat (pyGet d "y" (.num 0))
    return (x, y)
  | _ => return (0, 0)

/-- The numeric context extracted at the top of `SmartAgent.get_action`
(agent.py lines 767-780). -/
structure AgentCtx where
  my_x : ℚ
  my_y : ℚ
  my_heading : ℚ
  hp : ℚ
  max_hp : ℚ
  hp_ratio : ℚ
  top_speed : ℚ
  max_heading : ℚ
  max_barrel : ℚ
  barrel_angle : ℚ
  vision_range : ℚ

/-- Mirror of the status-parsing prologue of `SmartAgent.get_action`
(agent.py lines 767-780): each `float(status.get(key, dflt) or dflt)`
conversion can raise, and nothing in `agent.py` catches (the file contains no
`try` statement). -/
def smartGetActionPrologue (status : List (String × PyVal)) : Except String AgentCtx := do
  let xy ← to_xy (pyGet status "position" (.dict []))
  let my_heading ← pyFloat (pyOr (pyGet status "heading" (.num 0)) (.num 0))
  let hp ← pyFloat (pyOr (pyGet status "hp" (.num 100)) (.num 100))
  let max_hp ← pyFloat (pyOr (pyGet status "_max_hp" (.num 100)) (.num 100))
  let hp_ratio := if max_hp > 0 then hp / max_hp else 0
  let top_speed ← pyFloat (pyOr (pyGet status "_top_speed" (.num 3)) (.num 3))
  let max_heading ← pyFloat (pyOr (pyGet status "_heading_spin_rate" (.num 30)) (.num 30))
  let max_barrel ← pyFloat (pyOr (pyGet status "_barrel_spin_rate" (.num 30)) (.num 30))
  let barrel_angle ← pyFloat (pyOr (pyGet status "barrel_angle" (.num 0)) (.num 0))
  let vision_range ← pyFloat (pyOr (pyGet status "_vision_range" (.num 70)) (.num 70))
  return ⟨xy.1, xy.2, my_heading, hp, max_hp, hp_ratio, top_speed, max_heading,
    max_barrel, barrel_angle, vision_range⟩

/-- `SmartAgent.get_action` as exception flow: the parsing prologue runs
first, and since `agent_core/agent.py` contains no exception handler, the
remainder of the method (lines 781-1145) is an arbitrary continuation `rest`
receiving the parsed context; a prologue exception escapes the method for
every possible remainder. -/
def smartGetAction {α : Type} (rest : AgentCtx → Except String α)
    (status : List (String × PyVal)) : Except String α :=
  (smartGetActionPrologue status).bind rest

/-- Mirror of the `except Exception` handler of `FuzzyAgent.get_action`
(final_agent.py lines 727, 810-814): the decision hierarchy's outcome is
replaced by zero turn, zero speed and the `"error"` source on any exception. -/
def finalAgentAfterTry (attempt : Except String (ℚ × ℚ × String)) : ℚ × ℚ × String :=
  match attempt with
  | .ok v => v
  | .error _ => (0, 0, "error")

/-- A tank status whose `heading` field is a non-numeric string: Python
`float("oops")` raises `ValueError`. -/
def badStatus : List (String × PyVal) := [("heading", .str "oops")]

/-- C8 counterexample: with a non-numeric `heading` in the status payload,
`SmartAgent.get_action` raises out of the per-tick call even when the whole
remainder of the method is benign — `agent.py` has no handler to convert the
exception into a neutral command. -/
theorem smart_get_action_raises :
    smartGetAction (fun _ => Except.ok ((0, 0) : ℚ × ℚ)) badStatus
      = Except.error "ValueError: could not convert string to float: oops" := rfl

/-- C8 (amended): only `FuzzyAgent.get_action` (final_agent.py) converts
exceptions — and only those raised inside its priority-decision `try` block —
into the neutral zero-turn/zero-speed command; `SmartAgent.get_action`
(agent_core/agent.py) contains no handler, so an exception raised while
parsing the status (for example a non-numeric `heading`) propagates to the
host for every possible remainder of the method. -/
theorem get_action_exception_handling :
    (∀ e : String, finalAgentAfterTry (.error e) = (0, 0, "error"))
    ∧ (∀ v : ℚ × ℚ × String, finalAgentAfterTry (.ok v) = v)
    ∧ (∀ (α : Type) (rest : AgentCtx → Except String α),
        smartGetAction rest badStatus
          = Except.error "ValueError: could not convert string to float: oops") :=
  ⟨fun _ => rfl, fun _ => rfl, fun _ _ => rfl⟩

/-- Mirror of `Goal` (goal_selector.py lines 9-13). -/
structure Goal where
  cell : Cell
  mode : String
  score : ℚ
deriving DecidableEq

/-- Mirror of `GoalSelector._manhattan`. -/
def manhattan (a b : Cell) : ℤ :=
  |a.1 - b.1| + |a.2 - b.2|

/-- Python `range(lo, hi)` as an integer list. -/
def rng (lo hi : ℤ) : List ℤ :=
  (List.range (hi - lo).toNat).map (fun n => lo + (n : ℤ))

/-- The nested `for dx ... for dy ...` iteration order of the selector
scans. -/
def offsets (lo hi : ℤ) : List (ℤ × ℤ) :=
  (rng lo hi).flatMap (fun dx => (rng lo hi).map (fun dy => (dx, dy)))

/-- Python `min(items, key=...)`: the first item with minimal key. -/
def minByKey {α : Type} (key : α → ℤ) : List α → Option α
  | [] => none
  | x :: xs => some (xs.foldl (fun best y => if key y < key best then y else best) x)

/-- Insert after all entries with key at most the new key, so that
left-to-right insertion is stable like Python `list.sort`. -/
def insertAfterEq {α : Type} (key : α → ℤ) (x : α) : List α → List α
  | [] => [x]
  | y :: ys => if key x < key y then x :: y :: ys else y :: insertAfterEq key x ys

/-- Stable ascending sort by integer key, mirroring Python `list.sort(key=...)`. -/
def sortByKey {α : Type} (key : α → ℤ) (l : List α) : List α :=
  l.foldl (fun acc x => insertAfterEq key x acc) []

/-- Substring test over character lists. -/
def containsSub (needle haystack : List Char) : Bool :=
  match haystack with
  | [] => needle.isEmpty
  | _ :: rest => needle.isPrefixOf haystack || containsSub needle rest

/-- Python `sub in s` on strings. -/
def strContains (s sub : String) : Bool :=
  containsSub sub.data s.data

/-- Mirror of `GoalSelector._cell_safety_value` (goal_selector.py lines
24-34); `get_state` lazily inserts, so the updated model is returned. -/
def cell_safety_value (m : WorldModel) (c : Cell) : ℚ × WorldModel :=
  let sw := m.get_state c
  let visits : ℚ := ((alookup sw.2.visit_counts c).getD 0 : ℕ)
  let local_pressure := sw.2.local_block_pressure c
  (2.8 * sw.1.safe - 6.5 * sw.1.danger - 4.2 * sw.1.blocked - 0.8 * local_pressure
    - 0.18 * visits, sw.2)

/-- The candidate score of `_choose_attack_standoff` (goal_selector.py lines
57-59). `_cell_safety_value` lazily inserts, so the updated model is
returned alongside. -/
def standoff_score (m : WorldModel) (cell my_cell enemy_cell : Cell) :
    ℚ × WorldModel :=
  let dist_enemy := manhattan cell enemy_cell
  let dist_me := manhattan cell my_cell
  let sv := cell_safety_value m cell
  (1.8 * sv.1 - 0.35 * (dist_me : ℚ) - 0.15 * ((|dist_enemy - 4| : ℤ) : ℚ), sv.2)

/-- Mirror of `GoalSelector._choose_attack_standoff` (goal_selector.py lines
43-64). -/
def choose_attack_standoff (m : WorldModel) (my_cell enemy_cell : Cell) :
    Option Cell × WorldModel :=
  let r := (offsets (-5) 6).foldl
    (fun (acc : Option Cell × ℚ × WorldModel) d =>
      let cell := (enemy_cell.1 + d.1, enemy_cell.2 + d.2)
      if acc.2.2.is_blocked_for_pathing cell then acc
      else
        let dist_enemy := manhattan cell enemy_cell
        if dist_enemy < 2 ∨ dist_enemy > 6 then acc
        else
          let sc := standoff_score acc.2.2 cell my_cell enemy_cell
          if sc.1 > acc.2.1 then (some cell, sc.1, sc.2) else (acc.1, acc.2.1, sc.2))
    (none, -1000000000, m)
  (r.1, r.2.2)

/-- The candidate score of `_choose_control_lane` (goal_selector.py lines
80-83). `_cell_safety_value` lazily inserts, so the updated model is
returned alongside. -/
def lane_score (m : WorldModel) (cell : Cell) (dist : ℤ) : ℚ × WorldModel :=
  let sv := cell_safety_value m cell
  let frontier_bonus := 0.65 * (unknown_neighbors sv.2 cell : ℚ)
  let range_bonus := -0.12 * ((|dist - 7| : ℤ) : ℚ)
  (sv.1 + frontier_bonus + range_bonus, sv.2)

/-- Mirror of `GoalSelector._choose_control_lane` (goal_selector.py lines
66-88). -/
def choose_control_lane (m : WorldModel) (my_cell : Cell) (radius : ℤ := 12) :
    Option Cell × WorldModel :=
  let r := (offsets (-radius) (radius + 1)).foldl
    (fun (acc : Option Cell × ℚ × WorldModel) d =>
      let cell := (my_cell.1 + d.1, my_cell.2 + d.2)
      if acc.2.2.is_blocked_for_pathing cell then acc
      else
        let dist := |d.1| + |d.2|
        if dist < 3 ∨ dist > radius then acc
        else
          let sc := lane_score acc.2.2 cell dist
          if sc.1 > acc.2.1 then (some cell, sc.1, sc.2) else (acc.1, acc.2.1, sc.2))
    (none, -1000000000, m)
  (r.1, r.2.2)

/-- The candidate score of `nearest_safe_cell` (goal_selector.py lines
119-121), over the state looked up (or lazily inserted) for the cell and the
model current at that point. -/
def safe_cell_score (m : WorldModel) (st : CellState) (cell : Cell) (dist : ℤ) : ℚ :=
  let local_pressure := m.local_block_pressure cell
  3.0 * st.safe - 6.0 * st.danger - 3.5 * st.blocked - 0.8 * local_pressure
    + 0.22 * (dist : ℚ)

/-- Mirror of `GoalSelector.nearest_safe_cell` (goal_selector.py lines
106-125). -/
def nearest_safe_cell (m : WorldModel) (my_cell : Cell) (radius : ℤ := 10)
    (require_known : Bool := false) : Option Cell × WorldModel :=
  let r := (offsets (-radius) (radius + 1)).foldl
    (fun (acc : Option Cell × ℚ × WorldModel) d =>
      let cell := (my_cell.1 + d.1, my_cell.2 + d.2)
      if acc.2.2.is_blocked_for_pathing cell then acc
      else
        match alookup acc.2.2.cell_states cell with
        | none =>
          if require_known then acc
          else
            let sw := acc.2.2.get_state cell
            let dist := |d.1| + |d.2|
            let score := safe_cell_score sw.2 sw.1 cell dist
            if score > acc.2.1 then (some cell, score, sw.2) else (acc.1, acc.2.1, sw.2)
        | some st =>
          let dist := |d.1| + |d.2|
          let score := safe_cell_score acc.2.2 st cell dist
          if score > acc.2.1 then (some cell, score, acc.2.2) else acc)
    (none, -1000000000, m)
  (r.1, r.2.2)

/-- The candidate value of the exploration scan (goal_selector.py lines
189-194), over the state looked up (or lazily inserted) for the cell and the
model current at that point. -/
def explore_value (m : WorldModel) (st : CellState) (cell : Cell) (visits : ℚ)
    (dist_penalty : ℤ) : ℚ :=
  let local_pressure := m.local_block_pressure cell
  let safety_penalty := 4.5 * st.danger + 3.6 * st.blocked + 0.7 * local_pressure
    - 0.7 * min st.safe 3
  visits + 0.1 * ((dist_penalty : ℤ) : ℚ) + safety_penalty

/-- The final exploration scan of `GoalSelector.choose_goal` (goal_selector.py
lines 182-197). -/
def explore_scan (m : WorldModel) (my_cell : Cell) : Option Cell × WorldModel :=
  let r := (offsets (-8) 9).foldl
    (fun (acc : Option Cell × ℚ × WorldModel) d =>
      let cell := (my_cell.1 + d.1, my_cell.2 + d.2)
      if acc.2.2.is_blocked_for_pathing cell then acc
      else
        let visits : ℚ := ((alookup acc.2.2.visit_counts cell).getD 0 : ℕ)
        let sw := acc.2.2.get_state cell
        let dist_penalty := |(|d.1| + |d.2|) - 5|
        let value := explore_value sw.2 sw.1 cell visits dist_penalty
        if value < acc.2.1 then (some cell, value, sw.2) else (acc.1, acc.2.1, sw.2))
    (none, 1000000000, m)
  (r.1, r.2.2)

/-- The model returned by `standoff_score` is the `get_state` insertion. -/
theorem standoff_score_insertsOnly (m : WorldModel) (cell my_cell enemy_cell : Cell) :
    InsertsOnly m (standoff_score m cell my_cell enemy_cell).2 :=
  get_state_insertsOnly m cell

/-- The model returned by `lane_score` is the `get_state` insertion. -/
theorem lane_score_insertsOnly (m : WorldModel) (cell : Cell) (dist : ℤ) :
    InsertsOnly m (lane_score m cell dist).2 :=
  get_state_insertsOnly m cell

/-- Lazy default insertions do not change pathability: an inserted cell
carries the all-zero state, which every blocking test rejects. -/
theorem is_blocked_insertsOnly (m m' : WorldModel) (c : Cell)
    (hio : InsertsOnly m m') :
    m'.is_blocked_for_pathing c = m.is_blocked_for_pathing c := by
  obtain ⟨_, _, hde, _, _, _, _, _, hpo, hkeep, hnew⟩ := hio
  unfold WorldModel.is_blocked_for_pathing
  rw [hde, hpo]
  cases hn : alookup m.cell_states c with
  | some st => rw [hkeep c st hn]
  | none =>
    rcases hnew c hn with h' | h'
    · rw [h']
    · rw [h']
      by_cases hdd : alookup m.dead_end_ttl c ≠ none
      · rw [if_pos hdd, if_pos hdd]
      · rw [if_neg hdd, if_neg hdd]
        dsimp only
        norm_num

/-- Invariant of the candidate scans in the goal selector: every step either
keeps the accumulator, or produces a candidate that passed the blocking
filter against the current model, and the model only grows by lazy
insertions; hence the outcome of the fold is a candidate that was unblocked
in the entry model. -/
theorem scan_fold_invariant {β : Type} (m0 : WorldModel)
    (step : (Option Cell × ℚ × WorldModel) → β → (Option Cell × ℚ × WorldModel))
    (hstep : ∀ acc d, InsertsOnly acc.2.2 (step acc d).2.2
      ∧ ((step acc d).1 = acc.1
          ∨ ∃ c, (step acc d).1 = some c
              ∧ acc.2.2.is_blocked_for_pathing c = false))
    (l : List β) :
    ∀ acc : Option Cell × ℚ × WorldModel, InsertsOnly m0 acc.2.2 →
      (∀ c, acc.1 = some c → m0.is_blocked_for_pathing c = false) →
      InsertsOnly m0 ((l.foldl step acc).2.2)
      ∧ ∀ c, (l.foldl step acc).1 = some c →
          m0.is_blocked_for_pathing c = false := by
  induction l with
  | nil => intro acc h1 h2; exact ⟨h1, h2⟩
  | cons b l ih =>
    intro acc h1 h2
    rw [List.foldl_cons]
    obtain ⟨hio, hopt⟩ := hstep acc b
    refine ih _ (insertsOnly_trans h1 hio) ?_
    rcases hopt with he | ⟨c, hc, hub⟩
    · intro c' hc'
      exact h2 c' (he ▸ hc')
    · intro c' hc'
      rw [hc] at hc'
      obtain rfl := Option.some.inj hc'
      rw [← is_blocked_insertsOnly m0 acc.2.2 c h1]
      exact hub

/-- `nearest_safe_cell` only performs lazy insertions, and any returned cell
passed the blocking filter against the entry model. -/
theorem nearest_safe_cell_sound (m : WorldModel) (my_cell : Cell) (radius : ℤ)
    (rk : Bool) :
    InsertsOnly m (nearest_safe_cell m my_cell radius rk).2
    ∧ ∀ c, (nearest_safe_cell m my_cell radius rk).1 = some c →
        m.is_blocked_for_pathing c = false := by
  unfold nearest_safe_cell
  refine scan_fold_invariant m _ (fun acc d => ?_) (offsets (-radius) (radius + 1))
    (none, -1000000000, m) (insertsOnly_refl m) (fun c hc => by cases hc)
  dsimp only
  by_cases hb : acc.2.2.is_blocked_for_pathing (my_cell.1 + d.1, my_cell.2 + d.2) = true
  · rw [if_pos hb]
    exact ⟨insertsOnly_refl _, Or.inl rfl⟩
  · rw [if_neg hb]
    have hbf : acc.2.2.is_blocked_for_pathing (my_cell.1 + d.1, my_cell.2 + d.2) = false := by
      simpa using hb
    cases hlk : alookup acc.2.2.cell_states (my_cell.1 + d.1, my_cell.2 + d.2) with
    | none =>
      dsimp only
      by_cases hrk : rk = true
      · rw [if_pos hrk]
        exact ⟨insertsOnly_refl _, Or.inl rfl⟩
      · rw [if_neg hrk]
        split
        · exact ⟨get_state_insertsOnly _ _, Or.inr ⟨_, rfl, hbf⟩⟩
        · exact ⟨get_state_insertsOnly _ _, Or.inl rfl⟩
    | some st =>
      dsimp only
      split
      · exact ⟨insertsOnly_refl _, Or.inr ⟨_, rfl, hbf⟩⟩
      · exact ⟨insertsOnly_refl _, Or.inl rfl⟩

/-- `_choose_attack_standoff` only performs lazy insertions, and any returned
cell passed the blocking filter against the entry model. -/
theorem choose_attack_standoff_sound (m : WorldModel) (my_cell enemy_cell : Cell) :
    InsertsOnly m (choose_attack_standoff m my_cell enemy_cell).2
    ∧ ∀ c, (choose_attack_standoff m my_cell enemy_cell).1 = some c →
        m.is_blocked_for_pathing c = false := by
  unfold choose_attack_standoff
  generalize offsets (-5) 6 = l
  refine scan_fold_invariant m _ (fun acc d => ?_) l
    (none, -1000000000, m) (insertsOnly_refl m) (fun c hc => by cases hc)
  dsimp only
  by_cases hb : acc.2.2.is_blocked_for_pathing (enemy_cell.1 + d.1, enemy_cell.2 + d.2) = true
  · rw [if_pos hb]
    exact ⟨insertsOnly_refl _, Or.inl rfl⟩
  · rw [if_neg hb]
    have hbf : acc.2.2.is_blocked_for_pathing (enemy_cell.1 + d.1, enemy_cell.2 + d.2) = false := by
      simpa using hb
    split
    · exact ⟨insertsOnly_refl _, Or.inl rfl⟩
    · split
      · exact ⟨standoff_score_insertsOnly acc.2.2
          (enemy_cell.1 + d.1, enemy_cell.2 + d.2) my_cell enemy_cell,
          Or.inr ⟨_, rfl, hbf⟩⟩
      · exact ⟨standoff_score_insertsOnly acc.2.2
          (enemy_cell.1 + d.1, enemy_cell.2 + d.2) my_cell enemy_cell, Or.inl rfl⟩

/-- `_choose_control_lane` only performs lazy insertions, and any returned
cell passed the blocking filter against the entry model. -/
theorem choose_control_lane_sound (m : WorldModel) (my_cell : Cell) (radius : ℤ) :
    InsertsOnly m (choose_control_lane m my_cell radius).2
    ∧ ∀ c, (choose_control_lane m my_cell radius).1 = some c →
        m.is_blocked_for_pathing c = false := by
  unfold choose_control_lane
  refine scan_fold_invariant m _ (fun acc d => ?_) (offsets (-radius) (radius + 1))
    (none, -1000000000, m) (insertsOnly_refl m) (fun c hc => by cases hc)
  dsimp only
  by_cases hb : acc.2.2.is_blocked_for_pathing (my_cell.1 + d.1, my_cell.2 + d.2) = true
  · rw [if_pos hb]
    exact ⟨insertsOnly_refl _, Or.inl rfl⟩
  · rw [if_neg hb]
    have hbf : acc.2.2.is_blocked_for_pathing (my_cell.1 + d.1, my_cell.2 + d.2) = false := by
      simpa using hb
    split
    · exact ⟨insertsOnly_refl _, Or.inl rfl⟩
    · split
      · exact ⟨lane_score_insertsOnly acc.2.2 (my_cell.1 + d.1, my_cell.2 + d.2)
          (|d.1| + |d.2|), Or.inr ⟨_, rfl, hbf⟩⟩
      · exact ⟨lane_score_insertsOnly acc.2.2 (my_cell.1 + d.1, my_cell.2 + d.2)
          (|d.1| + |d.2|), Or.inl rfl⟩

/-- The final exploration scan only performs lazy insertions, and any
returned cell passed the blocking filter against the entry model. -/
theorem explore_scan_sound (m : WorldModel) (my_cell : Cell) :
    InsertsOnly m (explore_scan m my_cell).2
    ∧ ∀ c, (explore_scan m my_cell).1 = some c →
        m.is_blocked_for_pathing c = false := by
  unfold explore_scan
  generalize offsets (-8) 9 = l
  refine scan_fold_invariant m _ (fun acc d => ?_) l
    (none, 1000000000, m) (insertsOnly_refl m) (fun c hc => by cases hc)
  dsimp only
  by_cases hb : acc.2.2.is_blocked_for_pathing (my_cell.1 + d.1, my_cell.2 + d.2) = true
  · rw [if_pos hb]
    exact ⟨insertsOnly_refl _, Or.inl rfl⟩
  · rw [if_neg hb]
    have hbf : acc.2.2.is_blocked_for_pathing (my_cell.1 + d.1, my_cell.2 + d.2) = false := by
      simpa using hb
    split
    · exact ⟨get_state_insertsOnly acc.2.2 (my_cell.1 + d.1, my_cell.2 + d.2),
        Or.inr ⟨_, rfl, hbf⟩⟩
    · exact ⟨get_state_insertsOnly acc.2.2 (my_cell.1 + d.1, my_cell.2 + d.2),
        Or.inl rfl⟩

/-- The immediate powerup pickup block of `GoalSelector.choose_goal`
(goal_selector.py lines 141-145). -/
def pickup_goal (my_cell : Cell) (standing_on_danger : Bool)
    (pus : List (Cell × String)) : Option Goal :=
  if !pus.isEmpty && !standing_on_danger then
    match minByKey (fun item => manhattan item.1 my_cell) pus with
    | some closest =>
      if manhattan closest.1 my_cell ≤ 2 then some ⟨closest.1, "pickup_now", 950⟩ else none
    | none => none
  else none

/-- The standing-on-danger escape block of `GoalSelector.choose_goal`
(goal_selector.py lines 147-150). -/
def escape_goal (m : WorldModel) (my_cell : Cell) (standing_on_danger : Bool) :
    Option Goal × WorldModel :=
  if standing_on_danger then
    let r := nearest_safe_cell m my_cell 10 true
    match r.1 with
    | some safe => (some ⟨safe, "escape_danger", 999⟩, r.2)
    | none => (none, r.2)
  else (none, m)

/-- The low-hp retreat block of `GoalSelector.choose_goal` (goal_selector.py
lines 152-159). -/
def lowhp_goal (m : WorldModel) (my_cell : Cell) (hp_ratio : ℚ)
    (pus : List (Cell × String)) : Option Goal × WorldModel :=
  if hp_ratio < 0.45 then
    let medkits := (pus.filter (fun pu => strContains pu.2 "med")).map Prod.fst
    if !medkits.isEmpty then
      match sortByKey (fun c => manhattan c my_cell) medkits with
      | mk :: _ => (some ⟨mk, "low_hp_medkit", 900⟩, m)
      | [] => (none, m)
    else
      let r := nearest_safe_cell m my_cell 10 true
      match r.1 with
      | some safe => (some ⟨safe, "low_hp_safe", 850⟩, r.2)
      | none => (none, r.2)
  else (none, m)

/-- The enemy attack block of `GoalSelector.choose_goal` (goal_selector.py
lines 161-166). -/
def attack_goal (m : WorldModel) (my_cell : Cell) (hp_ratio : ℚ)
    (enemy_cells : List Cell) : Option Goal × WorldModel :=
  if !enemy_cells.isEmpty && hp_ratio ≥ 0.58 then
    match sortByKey (fun c => manhattan c my_cell) enemy_cells with
    | e0 :: _ =>
      let r := choose_attack_standoff m my_cell e0
      match r.1 with
      | some standoff => (some ⟨standoff, "attack_standoff", 720⟩, r.2)
      | none => (some ⟨e0, "attack", 700⟩, r.2)
    | [] => (none, m)
  else (none, m)

/-- The powerup collection block of `GoalSelector.choose_goal`
(goal_selector.py lines 168-176). -/
def collect_goal (my_cell : Cell) (hp_ratio : ℚ) (pus : List (Cell × String)) :
    Option Goal :=
  if !pus.isEmpty then
    let medkits := (pus.filter (fun pu => strContains pu.2 "med")).map Prod.fst
    if hp_ratio < 0.8 && !medkits.isEmpty then
      match sortByKey (fun c => manhattan c my_cell) medkits with
      | mk :: _ => some ⟨mk, "collect_medkit", 600⟩
      | [] => none
    else
      match sortByKey (fun item => manhattan item.1 my_cell) pus with
      | p0 :: _ => some ⟨p0.1, "collect_powerup", 500⟩
      | [] => none
  else none

/-- Mirror of `GoalSelector.choose_goal` (goal_selector.py lines 127-202),
assembled from the block functions above in source order. The
sensor-dependent callbacks are already applied: `standing_on_danger` is the
value of `standing_on_danger_fn` at the agent position, `tanks` and
`powerups` carry the positions and `powerup_type_fn` outputs of the sensed
tanks and powerups. -/
def choose_goal (m : WorldModel) (my_x my_y hp_ratio : ℚ) (standing_on_danger : Bool)
    (tanks : List (ℚ × ℚ)) (powerups : List ((ℚ × ℚ) × String)) :
    Option Goal × WorldModel :=
  let my_cell := m.to_cell my_x my_y
  let enemy_cells := tanks.map (fun p => m.to_cell p.1 p.2)
  let pus := powerups.map (fun p => (m.to_cell p.1.1 p.1.2, p.2))
  match pickup_goal my_cell standing_on_danger pus with
  | some g => (some g, m)
  | none =>
    match escape_goal m my_cell standing_on_danger with
    | (some g, m1) => (some g, m1)
    | (none, m1) =>
      match lowhp_goal m1 my_cell hp_ratio pus with
      | (some g, m2) => (some g, m2)
      | (none, m2) =>
        match attack_goal m2 my_cell hp_ratio enemy_cells with
        | (some g, m3) => (some g, m3)
        | (none, m3) =>
          match collect_goal my_cell hp_ratio pus with
          | some g => (some g, m3)
          | none =>
            match choose_control_lane m3 my_cell 12 with
            | (some cl, m4) => (some ⟨cl, "control_lane", 360⟩, m4)
            | (none, m4) =>
              match explore_scan m4 my_cell with
              | (some bc, m5) => (some ⟨bc, "explore", 300⟩, m5)
              | (none, m5) => (none, m5)

/-- The pickup block only ever produces `pickup_now` goals. -/
theorem pickup_goal_mode (my_cell : Cell) (standing : Bool)
    (pus : List (Cell × String)) (g : Goal)
    (h : pickup_goal my_cell standing pus = some g) : g.mode = "pickup_now" := by
  unfold pickup_goal at h
  split at h
  · split at h
    · split at h
      · obtain rfl := Option.some.inj h
        rfl
      · cases h
    · cases h
  · cases h

/-- The collection block only ever produces `collect_medkit` or
`collect_powerup` goals. -/
theorem collect_goal_mode (my_cell : Cell) (hp : ℚ) (pus : List (Cell × String))
    (g : Goal) (h : collect_goal my_cell hp pus = some g) :
    g.mode = "collect_medkit" ∨ g.mode = "collect_powerup" := by
  unfold collect_goal at h
  split at h
  · dsimp only at h
    split at h
    · split at h
      · obtain rfl := Option.some.inj h
        exact Or.inl rfl
      · cases h
    · split at h
      · obtain rfl := Option.some.inj h
        exact Or.inr rfl
      · cases h
  · cases h

/-- The escape block only performs lazy insertions and only produces
`escape_danger` goals whose cell passed the blocking filter against the entry
model. -/
theorem escape_goal_sound (m : WorldModel) (my_cell : Cell) (standing : Bool) :
    InsertsOnly m (escape_goal m my_cell standing).2
    ∧ ∀ g m', escape_goal m my_cell standing = (some g, m') →
        g.mode = "escape_danger" ∧ m.is_blocked_for_pathing g.cell = false := by
  obtain ⟨hio, hopt⟩ := nearest_safe_cell_sound m my_cell 10 true
  unfold escape_goal
  revert hio hopt
  generalize nearest_safe_cell m my_cell 10 true = ns
  intro hio hopt
  split
  · dsimp only
    cases hr : ns.1 with
    | some safe =>
      refine ⟨hio, fun g m' hg => ?_⟩
      rw [Prod.mk.injEq] at hg
      obtain rfl := Option.some.inj hg.1
      exact ⟨rfl, hopt safe hr⟩
    | none =>
      exact ⟨hio, fun g m' hg => by rw [Prod.mk.injEq] at hg; cases hg.1⟩
  · exact ⟨insertsOnly_refl m, fun g m' hg => by rw [Prod.mk.injEq] at hg; cases hg.1⟩

/-- The low-hp block only performs lazy insertions and only produces
`low_hp_medkit` goals, or `low_hp_safe` goals whose cell passed the blocking
filter against the entry model. -/
theorem lowhp_goal_sound (m : WorldModel) (my_cell : Cell) (hp : ℚ)
    (pus : List (Cell × String)) :
    InsertsOnly m (lowhp_goal m my_cell hp pus).2
    ∧ ∀ g m', lowhp_goal m my_cell hp pus = (some g, m') →
        g.mode = "low_hp_medkit"
        ∨ (g.mode = "low_hp_safe" ∧ m.is_blocked_for_pathing g.cell = false) := by
  obtain ⟨hio, hopt⟩ := nearest_safe_cell_sound m my_cell 10 true
  unfold lowhp_goal
  revert hio hopt
  generalize nearest_safe_cell m my_cell 10 true = ns
  intro hio hopt
  split
  · dsimp only
    split
    · cases hsort : sortByKey (fun c => manhattan c my_cell)
          ((pus.filter (fun pu => strContains pu.2 "med")).map Prod.fst) with
      | cons mk0 rest =>
        refine ⟨insertsOnly_refl m, fun g m' hg => ?_⟩
        rw [Prod.mk.injEq] at hg
        obtain rfl := Option.some.inj hg.1
        exact Or.inl rfl
      | nil =>
        exact ⟨insertsOnly_refl m, fun g m' hg => by rw [Prod.mk.injEq] at hg; cases hg.1⟩
    · cases hr : ns.1 with
      | some safe =>
        refine ⟨hio, fun g m' hg => ?_⟩
        rw [Prod.mk.injEq] at hg
        obtain rfl := Option.some.inj hg.1
        exact Or.inr ⟨rfl, hopt safe hr⟩
      | none =>
        exact ⟨hio, fun g m' hg => by rw [Prod.mk.injEq] at hg; cases hg.1⟩
  · exact ⟨insertsOnly_refl m, fun g m' hg => by rw [Prod.mk.injEq] at hg; cases hg.1⟩

/-- The attack block only performs lazy insertions and only produces
`attack_standoff` goals whose cell passed the blocking filter against the
entry model, or plain `attack` goals. -/
theorem attack_goal_sound (m : WorldModel) (my_cell : Cell) (hp : ℚ)
    (enemy_cells : List Cell) :
    InsertsOnly m (attack_goal m my_cell hp enemy_cells).2
    ∧ ∀ g m', attack_goal m my_cell hp enemy_cells = (some g, m') →
        (g.mode = "attack_standoff" ∧ m.is_blocked_for_pathing g.cell = false)
        ∨ g.mode = "attack" := by
  unfold attack_goal
  split
  · cases hsort : sortByKey (fun c => manhattan c my_cell) enemy_cells with
    | cons e0 rest =>
      obtain ⟨hio, hopt⟩ := choose_attack_standoff_sound m my_cell e0
      dsimp only
      revert hio hopt
      generalize choose_attack_standoff m my_cell e0 = r
      intro hio hopt
      cases hr : r.1 with
      | some standoff =>
        refine ⟨hio, fun g m' hg => ?_⟩
        rw [Prod.mk.injEq] at hg
        obtain rfl := Option.some.inj hg.1
        exact Or.inl ⟨rfl, hopt standoff hr⟩
      | none =>
        refine ⟨hio, fun g m' hg => ?_⟩
        rw [Prod.mk.injEq] at hg
        obtain rfl := Option.some.inj hg.1
        exact Or.inr rfl
    | nil =>
      exact ⟨insertsOnly_refl m, fun g m' hg => by rw [Prod.mk.injEq] at hg; cases hg.1⟩
  · exact ⟨insertsOnly_refl m, fun g m' hg => by rw [Prod.mk.injEq] at hg; cases hg.1⟩

/-- C1 (amended): when `GoalSelector.choose_goal` returns a goal produced by
one of the bounded candidate scans — modes `escape_danger`, `low_hp_safe`,
`attack_standoff`, `control_lane` and `explore` — the goal's cell satisfies
`not is_blocked_for_pathing(cell)` in the world model at the time of the
call. (The `pickup_now`, `low_hp_medkit`, `attack` fallback, `collect_medkit`
and `collect_powerup` branches take sensed or sorted cells without applying
the blocking filter, so the claim does not extend to them; see the
counterexample.) -/
theorem choose_goal_scan_modes_unblocked (m : WorldModel) (my_x my_y hp_ratio : ℚ)
    (standing : Bool) (tanks : List (ℚ × ℚ)) (pows : List ((ℚ × ℚ) × String)) (g : Goal)
    (h : (choose_goal m my_x my_y hp_ratio standing tanks pows).1 = some g)
    (hmode : g.mode = "escape_danger" ∨ g.mode = "low_hp_safe"
      ∨ g.mode = "attack_standoff" ∨ g.mode = "control_lane" ∨ g.mode = "explore") :
    m.is_blocked_for_pathing g.cell = false := by
  unfold choose_goal at h
  dsimp only at h
  cases hpk : pickup_goal (m.to_cell my_x my_y) standing
      (pows.map (fun p => (m.to_cell p.1.1 p.1.2, p.2))) with
  | some g0 =>
    rw [hpk] at h
    dsimp only at h
    obtain rfl := Option.some.inj h
    rw [pickup_goal_mode _ _ _ _ hpk] at hmode
    simp at hmode
  | none =>
  rw [hpk] at h
  dsimp only at h
  rcases hesc : escape_goal m (m.to_cell my_x my_y) standing with ⟨og1, m1⟩
  cases og1 with
  | some g1 =>
    rw [hesc] at h
    dsimp only at h
    obtain rfl := Option.some.inj h
    exact ((escape_goal_sound m (m.to_cell my_x my_y) standing).2 g1 m1 hesc).2
  | none =>
  rw [hesc] at h
  dsimp only at h
  have h1 : InsertsOnly m m1 := by
    have hx := (escape_goal_sound m (m.to_cell my_x my_y) standing).1
    rw [hesc] at hx
    exact hx
  rcases hlh : lowhp_goal m1 (m.to_cell my_x my_y) hp_ratio
      (pows.map (fun p => (m.to_cell p.1.1 p.1.2, p.2))) with ⟨og2, m2⟩
  cases og2 with
  | some g2 =>
    rw [hlh] at h
    dsimp only at h
    obtain rfl := Option.some.inj h
    rcases (lowhp_goal_sound m1 (m.to_cell my_x my_y) hp_ratio
        (pows.map (fun p => (m.to_cell p.1.1 p.1.2, p.2)))).2 g2 m2 hlh with hmk | ⟨_, hub⟩
    · rw [hmk] at hmode
      simp at hmode
    · rw [← is_blocked_insertsOnly m m1 g2.cell h1]
      exact hub
  | none =>
  rw [hlh] at h
  dsimp only at h
  have h2 : InsertsOnly m m2 := by
    have hx := (lowhp_goal_sound m1 (m.to_cell my_x my_y) hp_ratio
        (pows.map (fun p => (m.to_cell p.1.1 p.1.2, p.2)))).1
    rw [hlh] at hx
    exact insertsOnly_trans h1 hx
  rcases hat : attack_goal m2 (m.to_cell my_x my_y) hp_ratio
      (tanks.map (fun p => m.to_cell p.1 p.2)) with ⟨og3, m3⟩
  cases og3 with
  | some g3 =>
    rw [hat] at h
    dsimp only at h
    obtain rfl := Option.some.inj h
    rcases (attack_goal_sound m2 (m.to_cell my_x my_y) hp_ratio
        (tanks.map (fun p => m.to_cell p.1 p.2))).2 g3 m3 hat with ⟨_, hub⟩ | hatk
    · rw [← is_blocked_insertsOnly m m2 g3.cell h2]
      exact hub
    · rw [hatk] at hmode
      simp at hmode
  | none =>
  rw [hat] at h
  dsimp only at h
  have h3 : InsertsOnly m m3 := by
    have hx := (attack_goal_sound m2 (m.to_cell my_x my_y) hp_ratio
        (tanks.map (fun p => m.to_cell p.1 p.2))).1
    rw [hat] at hx
    exact insertsOnly_trans h2 hx
  cases hco : collect_goal (m.to_cell my_x my_y) hp_ratio
      (pows.map (fun p => (m.to_cell p.1.1 p.1.2, p.2))) with
  | some g4 =>
    rw [hco] at h
    dsimp only at h
    obtain rfl := Option.some.inj h
    rcases collect_goal_mode _ _ _ _ hco with hm | hm
    · rw [hm] at hmode
      simp at hmode
    · rw [hm] at hmode
      simp at hmode
  | none =>
  rw [hco] at h
  dsimp only at h
  rcases hla : choose_control_lane m3 (m.to_cell my_x my_y) 12 with ⟨oc4, m4⟩
  cases oc4 with
  | some cl =>
    rw [hla] at h
    dsimp only at h
    obtain rfl := Option.some.inj h
    have hub := (choose_control_lane_sound m3 (m.to_cell my_x my_y) 12).2 cl (by rw [hla])
    show m.is_blocked_for_pathing cl = false
    rw [← is_blocked_insertsOnly m m3 cl h3]
    exact hub
  | none =>
  rw [hla] at h
  dsimp only at h
  have h4 : InsertsOnly m m4 := by
    have hx := (choose_control_lane_sound m3 (m.to_cell my_x my_y) 12).1
    rw [hla] at hx
    exact insertsOnly_trans h3 hx
  rcases hex : explore_scan m4 (m.to_cell my_x my_y) with ⟨oc5, m5⟩
  cases oc5 with
  | some bc =>
    rw [hex] at h
    dsimp only at h
    obtain rfl := Option.some.inj h
    have hub := (explore_scan_sound m4 (m.to_cell my_x my_y)).2 bc (by rw [hex])
    show m.is_blocked_for_pathing bc = false
    rw [← is_blocked_insertsOnly m m4 bc h4]
    exact hub
  | none =>
    rw [hex] at h
    dsimp only at h
    cases h

/-- A model whose only information is a fresh dead-end mark on cell (0, 1). -/
def wmPickup : WorldModel := ({} : WorldModel).mark_dead_end (0, 1) 50

/-- C1 counterexample: with the agent at world position (5, 5) and a powerup
sensed at (5, 15), whose cell (0, 1) is currently marked as a dead end and
hence fails the blocking filter, `choose_goal` still returns it as a
`pickup_now` goal — the pickup branch never consults
`is_blocked_for_pathing`. -/
theorem choose_goal_blocked_counterexample :
    (choose_goal wmPickup 5 5 1 false [] [((5, 15), "ammo")]).1
      = some ⟨(0, 1), "pickup_now", 950⟩
    ∧ wmPickup.is_blocked_for_pathing (0, 1) = true := by
  with_unfolding_all decide

/-- Dead-end marks on every cell of the standoff annulus around the origin
except (0, 2), leaving exactly one candidate for the standoff scan. -/
def standoffBlocked : List (Cell × ℚ) :=
  (offsets (-5) 6).filterMap (fun d =>
    if 2 ≤ |d.1| + |d.2| ∧ |d.1| + |d.2| ≤ 6 ∧ d ≠ (0, 2) then some ((d.1, d.2), 50)
    else none)

/-- A model in which the standoff annulus around the origin is dead-ended
except for cell (0, 2). -/
def wmStandoff : WorldModel := { dead_end_ttl := standoffBlocked }

/-- Concrete check of `choose_goal_scan_modes_unblocked`: on `wmStandoff`
with an enemy on the agent's own cell, the selector returns the
`attack_standoff` goal at (0, 2), and that cell is indeed unblocked. -/
theorem choose_goal_scan_modes_unblocked_witness :
    wmStandoff.is_blocked_for_pathing (Goal.mk (0, 2) "attack_standoff" 720).cell
      = false :=
  choose_goal_scan_modes_unblocked wmStandoff 5 5 1 false [(5, 5)] []
    ⟨(0, 2), "attack_standoff", 720⟩ (by with_unfolding_all decide)
    (Or.inr (Or.inr (Or.inl rfl)))

end TankAgent
